import Mathlib

/-!
Verification of the REST+Json codec in src/wsme/protocols/restjson.py.

The file embeds, as executable Lean definitions, the module's two generic
converters `tojson` and `fromjson` (dispatched via simplegeneric: a
specific-identity registry consulted first, then the `when_type(list)` rule
for array descriptors, then the generic default handling complex types and
passthrough), the built-in scalar converters (decimal, date, time, datetime,
binary), and the `encode_result` method of `RestJsonProtocol`.

The behaviour of the Python standard-library calls made by the source
(`datetime.strptime` with the fixed formats, `isoformat`, `str`/`Decimal` of
decimals, `base64.encodestring`/`decodestring`, `json.dumps`) is embedded at
the character level, following CPython's documented algorithms.

The type-descriptor model (`wsme.types`: `iscomplex`, `list_attributes`,
attribute get/set, instantiation) is not part of src/; it is modelled from
the spec where noted.
-/

/-! ### Characters and digit strings -/

/-- True when the natural number is one of the ten decimal digits of a
digit character produced by `Nat.digitChar`. -/
def charToDigit (c : Char) : Nat := c.toNat - 48

/-- Facts about decimal digit characters, used throughout the parsers. -/
theorem digitChar_facts : ∀ d : Nat, d < 10 →
    (Nat.digitChar d).isDigit = true ∧ (Nat.digitChar d).toNat = 48 + d := by
  decide

/-- Big-endian digit list of a natural number, no leading zeros
(except for 0 itself, which is rendered as a single 0 digit). -/
def natDigitsBE (n : Nat) : List Nat :=
  if _h : n < 10 then [n] else natDigitsBE (n / 10) ++ [n % 10]
termination_by n
decreasing_by
  exact Nat.div_lt_self (by omega) (by omega)

/-- Value of a big-endian digit list. -/
def valFold (ds : List Nat) : Nat :=
  ds.foldl (fun a d => 10 * a + d) 0

theorem valFold_aux (ds : List Nat) : ∀ a : Nat,
    ds.foldl (fun a d => 10 * a + d) a =
      a * 10 ^ ds.length + ds.foldl (fun a d => 10 * a + d) 0 := by
  induction ds with
  | nil => intro a; simp
  | cons d t ih =>
    intro a
    simp only [List.foldl_cons, List.length_cons]
    rw [ih (10 * a + d), ih (10 * 0 + d)]
    ring

theorem valFold_append (ds : List Nat) (d : Nat) :
    valFold (ds ++ [d]) = 10 * valFold ds + d := by
  simp [valFold, List.foldl_append]

theorem natDigitsBE_spec : ∀ n : Nat,
    (∀ d ∈ natDigitsBE n, d < 10) ∧ valFold (natDigitsBE n) = n ∧
      natDigitsBE n ≠ [] := by
  intro n
  induction n using Nat.strong_induction_on with
  | _ n ih =>
    rw [natDigitsBE]
    by_cases h : n < 10
    · rw [dif_pos h]
      refine ⟨by intro d hd; simp at hd; omega, ?_, by simp⟩
      simp [valFold]
    · rw [dif_neg h]
      have hlt : n / 10 < n := Nat.div_lt_self (by omega) (by omega)
      obtain ⟨h1, h2, h3⟩ := ih (n / 10) hlt
      refine ⟨?_, ?_, by simp⟩
      · intro d hd
        rcases List.mem_append.mp hd with h' | h'
        · exact h1 d h'
        · simp at h'; omega
      · rw [valFold_append, h2]; omega

/-- Two-digit zero-padded rendering (the `%02d` used by `isoformat`). -/
def pad2 (n : Nat) : List Char :=
  [Nat.digitChar (n / 10), Nat.digitChar (n % 10)]

/-- Four-digit zero-padded rendering (the `%04d` year of `isoformat`). -/
def pad4 (n : Nat) : List Char :=
  [Nat.digitChar (n / 1000), Nat.digitChar (n / 100 % 10),
   Nat.digitChar (n / 10 % 10), Nat.digitChar (n % 10)]

/-- Six-digit zero-padded rendering (the `.%06d` microseconds of `isoformat`). -/
def pad6 (n : Nat) : List Char :=
  [Nat.digitChar (n / 100000), Nat.digitChar (n / 10000 % 10),
   Nat.digitChar (n / 1000 % 10), Nat.digitChar (n / 100 % 10),
   Nat.digitChar (n / 10 % 10), Nat.digitChar (n % 10)]

/-! ### strptime field parsers

CPython's `_strptime` builds a regex from the format string: `%Y` is four
digits, `%m` is `1[0-2]|0[1-9]|[1-9]`, `%d` is `3[01]|[12]\d|0[1-9]|[1-9]`,
`%H` is `2[0-3]|[0-1]\d|\d`, `%M` and `%S` are `[0-5]\d|\d`, and literal
characters match themselves.  The regex is matched at the start of the
string and a `ValueError` is raised when unconverted data remains.  Each
field parser below implements the corresponding alternation (tried left to
right, as the regex engine does) and returns the value with the rest of the
input. -/

/-- The `%Y` field: exactly four digits. -/
def parse4Y : List Char → Option (Nat × List Char)
  | a :: b :: c :: d :: rest =>
    if a.isDigit ∧ b.isDigit ∧ c.isDigit ∧ d.isDigit then
      some ((charToDigit a) * 1000 + (charToDigit b) * 100 +
            (charToDigit c) * 10 + charToDigit d, rest)
    else none
  | _ => none

/-- The `%m` field: `1[0-2]|0[1-9]|[1-9]`. -/
def parseMM : List Char → Option (Nat × List Char)
  | [] => none
  | c :: rest =>
    if c = '1' then
      match rest with
      | c2 :: rest2 =>
        if c2 = '0' ∨ c2 = '1' ∨ c2 = '2' then some (10 + charToDigit c2, rest2)
        else some (1, rest)
      | [] => some (1, [])
    else if c = '0' then
      match rest with
      | c2 :: rest2 =>
        if c2.isDigit ∧ c2 ≠ '0' then some (charToDigit c2, rest2) else none
      | [] => none
    else if c.isDigit then some (charToDigit c, rest)
    else none

/-- The `%d` field: `3[01]|[12]\d|0[1-9]|[1-9]`. -/
def parseDD : List Char → Option (Nat × List Char)
  | [] => none
  | c :: rest =>
    if c = '3' then
      match rest with
      | c2 :: rest2 =>
        if c2 = '0' ∨ c2 = '1' then some (30 + charToDigit c2, rest2)
        else some (3, rest)
      | [] => some (3, [])
    else if c = '1' ∨ c = '2' then
      match rest with
      | c2 :: rest2 =>
        if c2.isDigit then some (10 * charToDigit c + charToDigit c2, rest2)
        else some (charToDigit c, rest)
      | [] => some (charToDigit c, [])
    else if c = '0' then
      match rest with
      | c2 :: rest2 =>
        if c2.isDigit ∧ c2 ≠ '0' then some (charToDigit c2, rest2) else none
      | [] => none
    else if c.isDigit then some (charToDigit c, rest)
    else none

/-- The `%H` field: `2[0-3]|[0-1]\d|\d`. -/
def parseHH : List Char → Option (Nat × List Char)
  | [] => none
  | c :: rest =>
    if c = '2' then
      match rest with
      | c2 :: rest2 =>
        if c2.isDigit ∧ c2.toNat ≤ 51 then some (20 + charToDigit c2, rest2)
        else some (2, rest)
      | [] => some (2, [])
    else if c = '0' ∨ c = '1' then
      match rest with
      | c2 :: rest2 =>
        if c2.isDigit then some (10 * charToDigit c + charToDigit c2, rest2)
        else some (charToDigit c, rest)
      | [] => some (charToDigit c, [])
    else if c.isDigit then some (charToDigit c, rest)
    else none

/-- The `%M` and `%S` fields: `[0-5]\d|\d`. -/
def parseMS : List Char → Option (Nat × List Char)
  | [] => none
  | c :: rest =>
    if c.isDigit ∧ c.toNat ≤ 53 then
      match rest with
      | c2 :: rest2 =>
        if c2.isDigit then some (10 * charToDigit c + charToDigit c2, rest2)
        else some (charToDigit c, rest)
      | [] => some (charToDigit c, [])
    else if c.isDigit then some (charToDigit c, rest)
    else none

/-- A literal character of the format string. -/
def expectChar (c : Char) : List Char → Option (List Char)
  | c2 :: rest => if c2 = c then some rest else none
  | [] => none

/-! ### Calendar validity (the checks done by the datetime constructors) -/

/-- Leap-year rule of the proleptic Gregorian calendar used by `datetime`. -/
def isLeap (y : Nat) : Bool :=
  (y % 4 = 0 && y % 100 ≠ 0) || y % 400 = 0

/-- Days in a month, as enforced by `datetime.date`. -/
def daysInMonth (y m : Nat) : Nat :=
  match m with
  | 1 | 3 | 5 | 7 | 8 | 10 | 12 => 31
  | 4 | 6 | 9 | 11 => 30
  | 2 => if isLeap y then 29 else 28
  | _ => 0

/-- Validity of a `datetime.date` value (`MINYEAR = 1`, `MAXYEAR = 9999`). -/
def validDate (y m d : Nat) : Bool :=
  1 ≤ y && y ≤ 9999 && 1 ≤ m && m ≤ 12 && 1 ≤ d && d ≤ daysInMonth y m

/-- Validity of a `datetime.time` value. -/
def validTime (h mi s us : Nat) : Bool :=
  h ≤ 23 && mi ≤ 59 && s ≤ 59 && us ≤ 999999

/-! ### isoformat renderings -/

/-- `date.isoformat()`: the string YYYY-MM-DD. -/
def fmtDate (y m d : Nat) : List Char :=
  pad4 y ++ '-' :: pad2 m ++ '-' :: pad2 d

/-- `time.isoformat()`: HH:MM:SS, followed by .ffffff when the microsecond
field is nonzero. -/
def fmtTime (h mi s us : Nat) : List Char :=
  pad2 h ++ ':' :: pad2 mi ++ ':' :: pad2 s ++
    (if us = 0 then [] else '.' :: pad6 us)

/-- `datetime.isoformat()`: the date, a T separator, and the time. -/
def fmtDatetime (y mo d h mi s us : Nat) : List Char :=
  fmtDate y mo d ++ 'T' :: fmtTime h mi s us

/-! ### The three strptime calls made by the decoders -/

/-- `datetime.strptime(value, '%Y-%m-%d')` followed by the constructor's
validity checks; returns the (year, month, day) fields. -/
def strptimeDate (cs : List Char) : Option (Nat × Nat × Nat) := do
  let (y, r1) ← parse4Y cs
  let r2 ← expectChar '-' r1
  let (m, r3) ← parseMM r2
  let r4 ← expectChar '-' r3
  let (d, r5) ← parseDD r4
  if r5 = [] ∧ validDate y m d then some (y, m, d) else none

/-- `datetime.strptime(value, '%H:%M:%S')`; returns (hour, minute, second). -/
def strptimeTime (cs : List Char) : Option (Nat × Nat × Nat) := do
  let (h, r1) ← parseHH cs
  let r2 ← expectChar ':' r1
  let (mi, r3) ← parseMS r2
  let r4 ← expectChar ':' r3
  let (s, r5) ← parseMS r4
  if r5 = [] then some (h, mi, s) else none

/-- `datetime.strptime(value, '%Y-%m-%dT%H:%M:%S')`. -/
def strptimeDatetime (cs : List Char) :
    Option (Nat × Nat × Nat × Nat × Nat × Nat) := do
  let (y, r1) ← parse4Y cs
  let r2 ← expectChar '-' r1
  let (mo, r3) ← parseMM r2
  let r4 ← expectChar '-' r3
  let (d, r5) ← parseDD r4
  let r6 ← expectChar 'T' r5
  let (h, r7) ← parseHH r6
  let r8 ← expectChar ':' r7
  let (mi, r9) ← parseMS r8
  let r10 ← expectChar ':' r9
  let (s, r11) ← parseMS r10
  if r11 = [] ∧ validDate y mo d then some (y, mo, d, h, mi, s) else none

/-! ### Field round-trip lemmas -/

theorem expectChar_cons (c : Char) (rest : List Char) :
    expectChar c (c :: rest) = some rest := by
  simp [expectChar]

theorem parse4Y_pad4 (y : Nat) (rest : List Char) (hy : y < 10000) :
    parse4Y (pad4 y ++ rest) = some (y, rest) := by
  have f1 := digitChar_facts (y / 1000) (by omega)
  have f2 := digitChar_facts (y / 100 % 10) (by omega)
  have f3 := digitChar_facts (y / 10 % 10) (by omega)
  have f4 := digitChar_facts (y % 10) (by omega)
  simp only [pad4, List.cons_append, List.nil_append, parse4Y,
    f1.1, f2.1, f3.1, f4.1, charToDigit, f1.2, f2.2, f3.2, f4.2,
    and_self, if_true]
  simp only [Option.some.injEq, Prod.mk.injEq]
  constructor
  · omega
  · trivial

theorem parseMS_pad2 (x : Nat) (rest : List Char) (hx : x ≤ 59) :
    parseMS (pad2 x ++ rest) = some (x, rest) := by
  have f1 := digitChar_facts (x / 10) (by omega)
  have f2 := digitChar_facts (x % 10) (by omega)
  simp only [pad2, List.cons_append, List.nil_append, parseMS,
    f1.1, f2.1, charToDigit, f1.2, f2.2]
  have hle : (Nat.digitChar (x / 10)).toNat ≤ 53 := by omega
  simp only [f1.2] at hle
  simp only [hle, and_self, true_and, if_true, f2.1, if_pos]
  simp only [Option.some.injEq, Prod.mk.injEq]
  constructor
  · omega
  · trivial

theorem parseMM_pad2 (m : Nat) (rest : List Char) (h1 : 1 ≤ m) (h2 : m ≤ 12) :
    parseMM (pad2 m ++ rest) = some (m, rest) := by
  interval_cases m <;>
    simp [pad2, parseMM, charToDigit, Nat.digitChar]

theorem parseDD_pad2 (d : Nat) (rest : List Char) (h1 : 1 ≤ d) (h2 : d ≤ 31) :
    parseDD (pad2 d ++ rest) = some (d, rest) := by
  interval_cases d <;>
    simp [pad2, parseDD, charToDigit, Nat.digitChar]

theorem parseHH_pad2 (h : Nat) (rest : List Char) (hh : h ≤ 23) :
    parseHH (pad2 h ++ rest) = some (h, rest) := by
  interval_cases h <;>
    simp [pad2, parseHH, charToDigit, Nat.digitChar]

theorem daysInMonth_le31 (y m : Nat) : daysInMonth y m ≤ 31 := by
  unfold daysInMonth
  split
  any_goals omega
  split <;> omega

theorem fmtDate_shape (y m d : Nat) (rest : List Char) :
    fmtDate y m d ++ rest =
      pad4 y ++ ('-' :: (pad2 m ++ ('-' :: (pad2 d ++ rest)))) := by
  simp [fmtDate]

theorem fmtTime_shape (h mi s : Nat) (rest : List Char) :
    fmtTime h mi s 0 ++ rest =
      pad2 h ++ (':' :: (pad2 mi ++ (':' :: (pad2 s ++ rest)))) := by
  simp [fmtTime]

theorem validDate_bounds (y m d : Nat) (hv : validDate y m d = true) :
    y < 10000 ∧ 1 ≤ m ∧ m ≤ 12 ∧ 1 ≤ d ∧ d ≤ 31 := by
  have h31 := daysInMonth_le31 y m
  simp only [validDate, Bool.and_eq_true, decide_eq_true_eq] at hv
  omega

theorem strptimeDate_fmt (y m d : Nat) (hv : validDate y m d = true) :
    strptimeDate (fmtDate y m d) = some (y, m, d) := by
  obtain ⟨hy, hm1, hm2, hd1, hd2⟩ := validDate_bounds y m d hv
  have e : fmtDate y m d =
      pad4 y ++ ('-' :: (pad2 m ++ ('-' :: (pad2 d ++ [])))) := by
    simpa using fmtDate_shape y m d []
  have hDD : parseDD (pad2 d) = some (d, []) := by
    simpa using parseDD_pad2 d [] hd1 hd2
  rw [strptimeDate, e]
  simp [parse4Y_pad4 _ _ hy, expectChar_cons, parseMM_pad2 _ _ hm1 hm2,
    hDD, hv]

theorem strptimeDate_fmt_extra (y m d : Nat) (extra : List Char)
    (hv : validDate y m d = true) (hne : extra ≠ []) :
    strptimeDate (fmtDate y m d ++ extra) = none := by
  obtain ⟨hy, hm1, hm2, hd1, hd2⟩ := validDate_bounds y m d hv
  rw [strptimeDate, fmtDate_shape]
  simp [parse4Y_pad4 _ _ hy, expectChar_cons, parseMM_pad2 _ _ hm1 hm2,
    parseDD_pad2 _ _ hd1 hd2, hne]

theorem strptimeTime_fmt (h mi s : Nat)
    (hh : h ≤ 23) (hmi : mi ≤ 59) (hs : s ≤ 59) :
    strptimeTime (fmtTime h mi s 0) = some (h, mi, s) := by
  have e : fmtTime h mi s 0 =
      pad2 h ++ (':' :: (pad2 mi ++ (':' :: (pad2 s ++ [])))) := by
    simpa using fmtTime_shape h mi s []
  have hSS : parseMS (pad2 s) = some (s, []) := by
    simpa using parseMS_pad2 s [] hs
  rw [strptimeTime, e]
  simp [parseHH_pad2 _ _ hh, expectChar_cons, parseMS_pad2 _ _ hmi, hSS]

theorem strptimeDatetime_fmt (y mo d h mi s : Nat)
    (hv : validDate y mo d = true)
    (hh : h ≤ 23) (hmi : mi ≤ 59) (hs : s ≤ 59) :
    strptimeDatetime (fmtDatetime y mo d h mi s 0) =
      some (y, mo, d, h, mi, s) := by
  obtain ⟨hy, hm1, hm2, hd1, hd2⟩ := validDate_bounds y mo d hv
  have e : fmtDatetime y mo d h mi s 0 =
      pad4 y ++ ('-' :: (pad2 mo ++ ('-' :: (pad2 d ++
        ('T' :: (pad2 h ++ (':' :: (pad2 mi ++ (':' :: (pad2 s ++ [])))))))))) := by
    rw [fmtDatetime, fmtDate_shape]
    simp [fmtTime]
  have hSS : parseMS (pad2 s) = some (s, []) := by
    simpa using parseMS_pad2 s [] hs
  rw [strptimeDatetime, e]
  simp [parse4Y_pad4 _ _ hy, expectChar_cons, parseMM_pad2 _ _ hm1 hm2,
    parseDD_pad2 _ _ hd1 hd2, parseHH_pad2 _ _ hh, parseMS_pad2 _ _ hmi,
    hSS, hv]

theorem strptimeDatetime_fmt_extra (y mo d h mi s : Nat) (extra : List Char)
    (hv : validDate y mo d = true)
    (hh : h ≤ 23) (hmi : mi ≤ 59) (hs : s ≤ 59) (hne : extra ≠ []) :
    strptimeDatetime (fmtDatetime y mo d h mi s 0 ++ extra) = none := by
  obtain ⟨hy, hm1, hm2, hd1, hd2⟩ := validDate_bounds y mo d hv
  have e : fmtDatetime y mo d h mi s 0 ++ extra =
      pad4 y ++ ('-' :: (pad2 mo ++ ('-' :: (pad2 d ++
        ('T' :: (pad2 h ++ (':' :: (pad2 mi ++ (':' :: (pad2 s ++ extra))))))))) ) := by
    rw [fmtDatetime]
    simp [fmtDate, fmtTime]
  rw [strptimeDatetime, e]
  simp [parse4Y_pad4 _ _ hy, expectChar_cons, parseMM_pad2 _ _ hm1 hm2,
    parseDD_pad2 _ _ hd1 hd2, parseHH_pad2 _ _ hh, parseMS_pad2 _ _ hmi,
    parseMS_pad2 _ _ hs, hne]

/-! ### Decimal values

A finite `decimal.Decimal` is a sign, a coefficient (big-endian digit
tuple) and an integer exponent.  `str` follows the to-scientific-string
algorithm of the decimal specification (CPython `Decimal.__str__`), and
`Decimal(string)` parses sign, digits, optional fraction and optional
exponent, storing the coefficient with leading zeros removed.  The special
values (NaN, infinities) are not modelled. -/

/-- Longest digit prefix of the input, as digit values, with the rest. -/
def scanDigits : List Char → (List Nat × List Char)
  | [] => ([], [])
  | c :: rest =>
    if c.isDigit then
      let (ds, r) := scanDigits rest
      (charToDigit c :: ds, r)
    else ([], c :: rest)

/-- Coefficient normalization done by the `Decimal` string constructor:
leading zeros are dropped, keeping a single zero digit for zero. -/
def normCoeff (ds : List Nat) : List Nat :=
  let t := ds.dropWhile (· = 0)
  if t.isEmpty then [0] else t

/-- A coefficient as stored by `Decimal` for any value built from a string:
nonempty decimal digits with no leading zero (except the single digit 0). -/
def decNormal (coeff : List Nat) : Bool :=
  !coeff.isEmpty && coeff.all (· < 10) && (coeff.headD 0 != 0 || coeff == [0])

/-- The unsigned part of `Decimal.__str__` (to-scientific-string, CPython
`_dec_to_string`); `exp + coeff.length` is the algorithm's `leftdigits`,
and the dot is placed at `leftdigits` (non-scientific) or 1 (scientific). -/
def decStrBody (coeff : List Nat) (exp : Int) : List Char :=
  if exp ≤ 0 ∧ -5 ≤ exp + (coeff.length : Int) then
    if exp + (coeff.length : Int) ≤ 0 then
      '0' :: '.' :: (List.replicate (-(exp + (coeff.length : Int))).toNat '0' ++
        coeff.map Nat.digitChar)
    else if (coeff.length : Int) ≤ exp + (coeff.length : Int) then
      coeff.map Nat.digitChar ++
        List.replicate ((exp + (coeff.length : Int)) - coeff.length).toNat '0'
    else
      (coeff.map Nat.digitChar).take (exp + (coeff.length : Int)).toNat ++
        '.' :: (coeff.map Nat.digitChar).drop (exp + (coeff.length : Int)).toNat
  else
    (if coeff.length = 1 then coeff.map Nat.digitChar
     else (coeff.map Nat.digitChar).take 1 ++
       '.' :: (coeff.map Nat.digitChar).drop 1) ++
    (if exp + (coeff.length : Int) - 1 = 0 then []
     else 'E' :: (if exp + (coeff.length : Int) - 1 < 0 then '-' else '+') ::
       (natDigitsBE (exp + (coeff.length : Int) - 1).natAbs).map Nat.digitChar)

/-- `Decimal.__str__`: optional minus sign followed by the unsigned body. -/
def decStr (sign : Bool) (coeff : List Nat) (exp : Int) : List Char :=
  (if sign then ['-'] else []) ++ decStrBody coeff exp

/-- The optional fraction of the `Decimal` string grammar: digits after a
point, or nothing. -/
def afterPoint : List Char → (List Nat × List Char)
  | '.' :: r => scanDigits r
  | cs => ([], cs)

/-- The optional sign of the `Decimal` string grammar. -/
def parseSign : List Char → (Bool × List Char)
  | '-' :: r => (true, r)
  | '+' :: r => (false, r)
  | cs => (false, cs)

/-- The digits part of the `Decimal` string grammar: integer digits, an
optional fraction, and an optional exponent, with nothing left over. -/
def decParseU (cs : List Char) : Option (List Nat × Int) :=
  let p1 := scanDigits cs
  let p2 := afterPoint p1.2
  if p1.1.isEmpty && p2.1.isEmpty then none
  else
    match p2.2 with
    | [] => some (normCoeff (p1.1 ++ p2.1), -(p2.1.length : Int))
    | e :: r =>
      if e = 'E' ∨ e = 'e' then
        let q1 := parseSign r
        let q2 := scanDigits q1.2
        if q2.1.isEmpty || !q2.2.isEmpty then none
        else
          let ev : Int :=
            if q1.1 then -(valFold q2.1 : Int) else (valFold q2.1 : Int)
          some (normCoeff (p1.1 ++ p2.1), ev - p2.1.length)
      else none

/-- `Decimal(string)`: an optional sign followed by the digits part. -/
def decParse (cs : List Char) : Option (Bool × List Nat × Int) :=
  let s := parseSign cs
  (decParseU s.2).map (fun p => (s.1, p.1, p.2))

theorem afterPoint_dot (r : List Char) : afterPoint ('.' :: r) = scanDigits r :=
  rfl

theorem afterPoint_other (c : Char) (r : List Char) (h : ¬ c = '.') :
    afterPoint (c :: r) = ([], c :: r) := by
  rw [afterPoint.eq_def]
  split
  · rename_i heq
    rw [List.cons.injEq] at heq
    exact absurd heq.1 h
  · rfl

theorem parseSign_minus (r : List Char) : parseSign ('-' :: r) = (true, r) :=
  rfl

theorem parseSign_plus (r : List Char) : parseSign ('+' :: r) = (false, r) :=
  rfl

theorem parseSign_other (c : Char) (r : List Char)
    (h1 : ¬ c = '-') (h2 : ¬ c = '+') :
    parseSign (c :: r) = (false, c :: r) := by
  rw [parseSign.eq_def]
  split
  · rename_i heq
    rw [List.cons.injEq] at heq
    exact absurd heq.1 h1
  · rename_i heq
    rw [List.cons.injEq] at heq
    exact absurd heq.1 h2
  · rfl

theorem scanDigits_exact (ds : List Nat) (rest : List Char)
    (hds : ∀ d ∈ ds, d < 10)
    (hrest : ∀ c, rest.head? = some c → c.isDigit = false) :
    scanDigits (ds.map Nat.digitChar ++ rest) = (ds, rest) := by
  induction ds with
  | nil =>
    simp only [List.map_nil, List.nil_append]
    match rest with
    | [] => rfl
    | c :: r =>
      have := hrest c (by simp)
      simp [scanDigits, this]
  | cons d t ih =>
    have hd := hds d (by simp)
    have f := digitChar_facts d hd
    simp only [List.map_cons, List.cons_append, scanDigits, f.1, if_true,
      List.append_eq]
    rw [ih (fun x hx => hds x (by simp [hx]))]
    simp [charToDigit, f.2]

theorem dropWhile_replicate_zero (k : Nat) (l : List Nat) :
    (List.replicate k 0 ++ l).dropWhile (· = 0) = l.dropWhile (· = 0) := by
  induction k with
  | zero => simp
  | succ n ih => simp [List.replicate_succ, List.dropWhile, ih]

theorem decNormal_parts (coeff : List Nat) (h : decNormal coeff = true) :
    coeff ≠ [] ∧ (∀ d ∈ coeff, d < 10) ∧
      (coeff.headD 0 ≠ 0 ∨ coeff = [0]) := by
  have h' := h
  simp only [decNormal, Bool.and_eq_true, List.all_eq_true, decide_eq_true_eq,
    Bool.or_eq_true, bne_iff_ne, beq_iff_eq, ne_eq] at h'
  refine ⟨?_, h'.1.2, ?_⟩
  · intro he; subst he; simp [decNormal] at h
  · tauto

theorem normCoeff_norm (coeff : List Nat) (hn : decNormal coeff = true)
    (k : Nat) : normCoeff (List.replicate k 0 ++ coeff) = coeff := by
  obtain ⟨hne, _, hhead⟩ := decNormal_parts coeff hn
  rw [normCoeff, dropWhile_replicate_zero]
  rcases hhead with hhead | hzero
  · match coeff, hne with
    | c :: t, _ =>
      simp only [List.headD_cons] at hhead
      simp [List.dropWhile, hhead]
  · subst hzero
    simp [List.dropWhile]

theorem digitChar_not_sign (d : Nat) (hd : d < 10) :
    ¬ Nat.digitChar d = '-' ∧ ¬ Nat.digitChar d = '+' ∧
      ¬ Nat.digitChar d = 'E' ∧ ¬ Nat.digitChar d = 'e' ∧
      ¬ Nat.digitChar d = '.' := by
  revert d hd; decide

theorem decParseU_branchA (coeff : List Nat) (exp : Int)
    (hn : decNormal coeff = true) (h1 : exp ≤ 0)
    (h3 : exp + (coeff.length : Int) ≤ 0)
    (h2 : -5 ≤ exp + (coeff.length : Int)) :
    decParseU (decStrBody coeff exp) = some (coeff, exp) := by
  obtain ⟨hne, hdig, _⟩ := decNormal_parts coeff hn
  rw [decStrBody, if_pos ⟨h1, h2⟩, if_pos h3]
  set k := (-(exp + (coeff.length : Int))).toNat with hk
  have s1 : scanDigits ('0' :: '.' ::
        (List.replicate k '0' ++ coeff.map Nat.digitChar))
      = ([0], '.' :: (List.replicate k '0' ++ coeff.map Nat.digitChar)) := by
    have e1 : ('0' :: '.' ::
          (List.replicate k '0' ++ coeff.map Nat.digitChar) : List Char)
        = [0].map Nat.digitChar ++
          ('.' :: (List.replicate k '0' ++ coeff.map Nat.digitChar)) := rfl
    rw [e1]
    exact scanDigits_exact [0] _ (by simp)
      (by intro c hc; simp at hc; subst hc; decide)
  have s2 : scanDigits (List.replicate k '0' ++ coeff.map Nat.digitChar)
      = (List.replicate k 0 ++ coeff, []) := by
    have e2 : List.replicate k '0' ++ coeff.map Nat.digitChar
        = (List.replicate k 0 ++ coeff).map Nat.digitChar ++ ([] : List Char) := by
      have : Nat.digitChar 0 = '0' := rfl
      simp only [List.map_append, List.map_replicate, List.append_nil, this]
    rw [e2]
    refine scanDigits_exact _ _ ?_ (by simp)
    intro d hd
    rcases List.mem_append.mp hd with h | h
    · simp at h; omega
    · exact hdig d h
  have e3 : (0 : Nat) :: (List.replicate k 0 ++ coeff)
      = List.replicate (k + 1) 0 ++ coeff := by
    simp [List.replicate_succ]
  simp only [decParseU, s1, afterPoint_dot, s2]
  simp only [List.cons_append, List.nil_append, List.isEmpty_cons,
    Bool.false_and, Bool.false_eq_true, if_false, List.singleton_append]
  simp only [e3, normCoeff_norm coeff hn (k + 1)]
  simp only [List.length_append, List.length_replicate, Option.some.injEq,
    Prod.mk.injEq, true_and]
  omega

theorem decParseU_branchB (coeff : List Nat) (exp : Int)
    (hn : decNormal coeff = true) (h1 : exp ≤ 0)
    (h2 : -5 ≤ exp + (coeff.length : Int))
    (hA1 : ¬ exp + (coeff.length : Int) ≤ 0)
    (hmid : (coeff.length : Int) ≤ exp + (coeff.length : Int)) :
    decParseU (decStrBody coeff exp) = some (coeff, exp) := by
  obtain ⟨hne, hdig, _⟩ := decNormal_parts coeff hn
  have hexp : exp = 0 := by omega
  subst hexp
  rw [decStrBody, if_pos ⟨h1, h2⟩, if_neg hA1, if_pos hmid]
  have hz : ((0 : Int) + (coeff.length : Int) - coeff.length).toNat = 0 := by
    omega
  rw [hz, List.replicate_zero]
  have s1 : scanDigits (coeff.map Nat.digitChar ++ []) = (coeff, []) :=
    scanDigits_exact coeff [] hdig (by simp)
  have nc : normCoeff coeff = coeff := by
    simpa using normCoeff_norm coeff hn 0
  have hie : coeff.isEmpty = false := by
    cases coeff with
    | nil => exact absurd rfl hne
    | cons c t => rfl
  have s1n : scanDigits (coeff.map Nat.digitChar) = (coeff, []) := by
    simpa using s1
  simp [decParseU, s1n, hie, nc, afterPoint]

theorem decParseU_branchC (coeff : List Nat) (exp : Int)
    (hn : decNormal coeff = true) (h1 : exp ≤ 0)
    (h2 : -5 ≤ exp + (coeff.length : Int))
    (hA1 : ¬ exp + (coeff.length : Int) ≤ 0)
    (hmid : ¬ (coeff.length : Int) ≤ exp + (coeff.length : Int)) :
    decParseU (decStrBody coeff exp) = some (coeff, exp) := by
  obtain ⟨hne, hdig, _⟩ := decNormal_parts coeff hn
  rw [decStrBody, if_pos ⟨h1, h2⟩, if_neg hA1, if_neg hmid]
  set p := (exp + (coeff.length : Int)).toNat with hp
  rw [← List.map_take, ← List.map_drop]
  have s1 : scanDigits ((coeff.take p).map Nat.digitChar ++
        ('.' :: ((coeff.drop p).map Nat.digitChar)))
      = (coeff.take p, '.' :: ((coeff.drop p).map Nat.digitChar)) :=
    scanDigits_exact _ _ (fun d hd => hdig d (List.take_subset _ _ hd))
      (by intro c hc; simp at hc; subst hc; decide)
  have s2 : scanDigits ((coeff.drop p).map Nat.digitChar)
      = (coeff.drop p, []) := by
    simpa using scanDigits_exact _ [] (fun d hd => hdig d (List.drop_subset _ _ hd))
      (by simp)
  have hlpos : 0 < coeff.length := List.length_pos.mpr hne
  have hp1 : 1 ≤ p := by omega
  have hplt : p < coeff.length := by omega
  have hie : (coeff.take p).isEmpty = false := by
    have hlen : (coeff.take p).length = p := by
      rw [List.length_take]; omega
    cases h : coeff.take p with
    | nil => rw [h] at hlen; simp at hlen; omega
    | cons c t => rfl
  have nc : normCoeff coeff = coeff := by
    simpa using normCoeff_norm coeff hn 0
  simp only [decParseU, s1, afterPoint_dot, s2, hie, List.take_append_drop, nc,
    Bool.false_and, Bool.false_eq_true, if_false, List.length_drop,
    Option.some.injEq, Prod.mk.injEq, true_and]
  omega

theorem decParseU_expPart (coeff : List Nat) (exp : Int)
    (hne : coeff ≠ [])
    (hD : ¬ (exp ≤ 0 ∧ -5 ≤ exp + (coeff.length : Int))) :
    ¬ exp + (coeff.length : Int) - 1 = 0 := by
  have hlpos : 0 < coeff.length := List.length_pos.mpr hne
  rw [not_and_or] at hD
  rcases hD with h | h <;> omega

theorem decParseU_branchD (coeff : List Nat) (exp : Int)
    (hn : decNormal coeff = true)
    (hD : ¬ (exp ≤ 0 ∧ -5 ≤ exp + (coeff.length : Int))) :
    decParseU (decStrBody coeff exp) = some (coeff, exp) := by
  obtain ⟨hne, hdig, _⟩ := decNormal_parts coeff hn
  have hlpos : 0 < coeff.length := List.length_pos.mpr hne
  have hL1 := decParseU_expPart coeff exp hne hD
  rw [decStrBody, if_neg hD, if_neg hL1]
  obtain ⟨hed_dig, hed_val, hed_ne⟩ :=
    natDigitsBE_spec (exp + (coeff.length : Int) - 1).natAbs
  set E : Int := exp + (coeff.length : Int) - 1 with hE
  set edig : List Char := (natDigitsBE E.natAbs).map Nat.digitChar with hedig
  set sgn : Char := if E < 0 then '-' else '+' with hsgn
  have hEd : scanDigits edig = (natDigitsBE E.natAbs, []) := by
    simpa using scanDigits_exact _ [] hed_dig (by simp)
  have heie : (natDigitsBE E.natAbs).isEmpty = false := by
    cases h : natDigitsBE E.natAbs with
    | nil => exact absurd h hed_ne
    | cons c t => rfl
  have hq1 : parseSign (sgn :: edig) = (decide (E < 0), edig) := by
    rw [hsgn]
    by_cases hEn : E < 0
    · simp [hEn, parseSign_minus]
    · simp [hEn, parseSign_plus]
  have hap : afterPoint ('E' :: sgn :: edig) = ([], 'E' :: sgn :: edig) :=
    afterPoint_other 'E' _ (by decide)
  have hev : (if decide (E < 0) = true
        then -(valFold (natDigitsBE E.natAbs) : Int)
        else (valFold (natDigitsBE E.natAbs) : Int)) = E := by
    rw [hed_val]
    by_cases hEn : E < 0
    · rw [if_pos (by simp [hEn])]
      omega
    · rw [if_neg (by simp [hEn])]
      omega
  have nc : normCoeff coeff = coeff := by
    simpa using normCoeff_norm coeff hn 0
  by_cases hone : coeff.length = 1
  · rw [if_pos hone]
    have s1 : scanDigits (coeff.map Nat.digitChar ++ 'E' :: sgn :: edig)
        = (coeff, 'E' :: sgn :: edig) :=
      scanDigits_exact _ _ hdig (by intro c hc; simp at hc; subst hc; decide)
    have hie : coeff.isEmpty = false := by
      cases coeff with
      | nil => exact absurd rfl hne
      | cons c t => rfl
    simp only [decParseU, s1, hap, hie, Bool.false_and, Bool.false_eq_true,
      if_false, hq1, hEd, heie, List.isEmpty_nil, Bool.not_true,
      Bool.or_false, Bool.false_or, Bool.or_self, hev, nc, List.append_nil,
      List.length_nil, eq_self_iff_true, true_or, if_true,
      Option.some.injEq, Prod.mk.injEq, true_and, Nat.cast_zero, sub_zero]
    omega
  · rw [if_neg hone]
    have hlen2 : 2 ≤ coeff.length := by omega
    rw [← List.map_take, ← List.map_drop]
    have e0 : ((coeff.take 1).map Nat.digitChar ++
          '.' :: (coeff.drop 1).map Nat.digitChar) ++ 'E' :: sgn :: edig
        = (coeff.take 1).map Nat.digitChar ++
          ('.' :: ((coeff.drop 1).map Nat.digitChar ++ 'E' :: sgn :: edig)) := by
      simp
    rw [e0]
    have s1 : scanDigits ((coeff.take 1).map Nat.digitChar ++
          ('.' :: ((coeff.drop 1).map Nat.digitChar ++ 'E' :: sgn :: edig)))
        = (coeff.take 1,
           '.' :: ((coeff.drop 1).map Nat.digitChar ++ 'E' :: sgn :: edig)) :=
      scanDigits_exact _ _ (fun d hd => hdig d (List.take_subset _ _ hd))
        (by intro c hc; simp at hc; subst hc; decide)
    have s2 : scanDigits ((coeff.drop 1).map Nat.digitChar ++ 'E' :: sgn :: edig)
        = (coeff.drop 1, 'E' :: sgn :: edig) :=
      scanDigits_exact _ _ (fun d hd => hdig d (List.drop_subset _ _ hd))
        (by intro c hc; simp at hc; subst hc; decide)
    have hie : (coeff.take 1).isEmpty = false := by
      have hlen : (coeff.take 1).length = 1 := by
        rw [List.length_take]; omega
      cases h : coeff.take 1 with
      | nil => rw [h] at hlen; simp at hlen
      | cons c t => rfl
    simp only [decParseU, s1, afterPoint_dot, s2, hap, hie, Bool.false_and,
      Bool.false_eq_true, if_false, hq1, hEd, heie, List.isEmpty_nil,
      Bool.not_true, Bool.or_false, Bool.false_or, Bool.or_self, hev,
      List.take_append_drop, nc, List.length_drop, eq_self_iff_true, true_or,
      if_true, Option.some.injEq, Prod.mk.injEq, true_and]
    omega

theorem decParseU_decStrBody (coeff : List Nat) (exp : Int)
    (hn : decNormal coeff = true) :
    decParseU (decStrBody coeff exp) = some (coeff, exp) := by
  by_cases hA : exp ≤ 0 ∧ -5 ≤ exp + (coeff.length : Int)
  · by_cases h3 : exp + (coeff.length : Int) ≤ 0
    · exact decParseU_branchA coeff exp hn hA.1 h3 hA.2
    · by_cases hmid : (coeff.length : Int) ≤ exp + (coeff.length : Int)
      · exact decParseU_branchB coeff exp hn hA.1 hA.2 h3 hmid
      · exact decParseU_branchC coeff exp hn hA.1 hA.2 h3 hmid
  · exact decParseU_branchD coeff exp hn hA

theorem decStrBody_head (coeff : List Nat) (exp : Int)
    (hn : decNormal coeff = true) :
    ∃ c t, decStrBody coeff exp = c :: t ∧ c.isDigit = true := by
  obtain ⟨hne, hdig, _⟩ := decNormal_parts coeff hn
  match coeff, hne with
  | c0 :: tl, _ =>
  have hc0 : c0 < 10 := hdig c0 (by simp)
  have hf := digitChar_facts c0 hc0
  rw [decStrBody]
  by_cases hA : exp ≤ 0 ∧ -5 ≤ exp + (((c0 :: tl).length : Nat) : Int)
  · rw [if_pos hA]
    by_cases h3 : exp + (((c0 :: tl).length : Nat) : Int) ≤ 0
    · rw [if_pos h3]
      exact ⟨'0', _, rfl, by decide⟩
    · rw [if_neg h3]
      by_cases hmid :
          (((c0 :: tl).length : Nat) : Int) ≤ exp + ((c0 :: tl).length : Int)
      · rw [if_pos hmid, List.map_cons, List.cons_append]
        exact ⟨Nat.digitChar c0, _, rfl, hf.1⟩
      · rw [if_neg hmid]
        obtain ⟨q, hq⟩ :
            ∃ q, (exp + (((c0 :: tl).length : Nat) : Int)).toNat = q + 1 :=
          ⟨(exp + (((c0 :: tl).length : Nat) : Int)).toNat - 1, by omega⟩
        rw [hq, List.map_cons, List.take_succ_cons, List.cons_append]
        exact ⟨Nat.digitChar c0, _, rfl, hf.1⟩
  · rw [if_neg hA]
    by_cases hone : (c0 :: tl).length = 1
    · rw [if_pos hone, List.map_cons, List.cons_append]
      exact ⟨Nat.digitChar c0, _, rfl, hf.1⟩
    · rw [if_neg hone, List.map_cons, List.take_succ_cons, List.take_zero,
        List.cons_append, List.cons_append]
      exact ⟨Nat.digitChar c0, _, rfl, hf.1⟩

/-- Round-trip of finite decimals: parsing the printed form of a `Decimal`
recovers the sign, coefficient and exponent exactly. -/
theorem decParse_decStr (sign : Bool) (coeff : List Nat) (exp : Int)
    (hn : decNormal coeff = true) :
    decParse (decStr sign coeff exp) = some (sign, coeff, exp) := by
  obtain ⟨c, t, hbody, hcd⟩ := decStrBody_head coeff exp hn
  have hu := decParseU_decStrBody coeff exp hn
  cases sign with
  | true =>
    have e : decStr true coeff exp = '-' :: decStrBody coeff exp := by
      simp [decStr]
    rw [e]
    simp only [decParse, parseSign_minus, hu]
    rfl
  | false =>
    have e : decStr false coeff exp = decStrBody coeff exp := by
      simp [decStr]
    have hns1 : ¬ c = '-' := fun he => by
      subst he; exact absurd hcd (by decide)
    have hns2 : ¬ c = '+' := fun he => by
      subst he; exact absurd hcd (by decide)
    rw [e, hbody]
    simp only [decParse, parseSign_other c t hns1 hns2]
    rw [← hbody, hu]
    rfl

/-! ### Base64 (`base64.encodestring` / `base64.decodestring`)

`encodestring` encodes 57-byte chunks (76 output characters) each followed
by a newline; `decodestring` (binascii `a2b_base64`) ignores characters
outside the alphabet and decodes the sextet stream, so the newlines and the
padding are skipped on the way back in. -/

/-- The base64 alphabet. -/
def encSext (i : Nat) : Char :=
  if i < 26 then Char.ofNat (65 + i)
  else if i < 52 then Char.ofNat (97 + (i - 26))
  else if i < 62 then Char.ofNat (48 + (i - 52))
  else if i = 62 then '+'
  else '/'

/-- Inverse of the alphabet; `none` for characters a2b_base64 skips. -/
def decSext (c : Char) : Option Nat :=
  if 65 ≤ c.toNat ∧ c.toNat ≤ 90 then some (c.toNat - 65)
  else if 97 ≤ c.toNat ∧ c.toNat ≤ 122 then some (26 + (c.toNat - 97))
  else if 48 ≤ c.toNat ∧ c.toNat ≤ 57 then some (52 + (c.toNat - 48))
  else if c = '+' then some 62
  else if c = '/' then some 63
  else none

/-- Base64 of a byte list: 3-byte groups to 4 characters, with padding. -/
def b64encGroups : List Nat → List Char
  | a :: b :: c :: rest =>
    encSext (a / 4) :: encSext ((a % 4) * 16 + b / 16) ::
    encSext ((b % 16) * 4 + c / 64) :: encSext (c % 64) :: b64encGroups rest
  | [a, b] => [encSext (a / 4), encSext ((a % 4) * 16 + b / 16),
               encSext ((b % 16) * 4), '=']
  | [a] => [encSext (a / 4), encSext ((a % 4) * 16), '=', '=']
  | [] => []

/-- `base64.encodestring`: 57-byte chunks, each base64-encoded with a
trailing newline (MIME line length 76). -/
def encodestring : List Nat → List Char
  | [] => []
  | b :: bs =>
    b64encGroups ((b :: bs).take 57) ++ '\n' :: encodestring ((b :: bs).drop 57)
termination_by l => l.length
decreasing_by
  simp only [List.length_drop, List.length_cons]
  omega

/-- Decoding of the sextet stream: 4 sextets to 3 bytes, a trailing group
of 3 to 2 bytes and of 2 to 1 byte (as after dropping `=` padding). -/
def b64decGroups : List Nat → List Nat
  | w :: x :: y :: z :: rest =>
    (w * 4 + x / 16) :: ((x % 16) * 16 + y / 4) :: ((y % 4) * 64 + z) ::
      b64decGroups rest
  | [w, x, y] => [w * 4 + x / 16, (x % 16) * 16 + y / 4]
  | [w, x] => [w * 4 + x / 16]
  | _ => []

/-- `base64.decodestring`: drop everything outside the alphabet (newlines,
padding), then decode the sextets. -/
def decodestring (cs : List Char) : List Nat :=
  b64decGroups (cs.filterMap decSext)

/-- The sextet stream produced by encoding a byte list (padding excluded). -/
def sextGroups : List Nat → List Nat
  | a :: b :: c :: rest =>
    a / 4 :: ((a % 4) * 16 + b / 16) :: ((b % 16) * 4 + c / 64) :: (c % 64) ::
      sextGroups rest
  | [a, b] => [a / 4, (a % 4) * 16 + b / 16, (b % 16) * 4]
  | [a] => [a / 4, (a % 4) * 16]
  | [] => []

theorem decSext_encSext : ∀ i : Nat, i < 64 → decSext (encSext i) = some i := by
  decide

theorem decSext_newline : decSext '\n' = none := by decide

theorem decSext_pad : decSext '=' = none := by decide

theorem filterMap_b64encGroups : ∀ g : List Nat, (∀ b ∈ g, b < 256) →
    (b64encGroups g).filterMap decSext = sextGroups g
  | [], _ => rfl
  | [a], h => by
    have ha : a < 256 := h a (by simp)
    simp [b64encGroups, sextGroups, List.filterMap_cons,
      decSext_encSext (a / 4) (by omega),
      decSext_encSext ((a % 4) * 16) (by omega), decSext_pad]
  | [a, b], h => by
    have ha : a < 256 := h a (by simp)
    have hb : b < 256 := h b (by simp)
    simp [b64encGroups, sextGroups, List.filterMap_cons,
      decSext_encSext (a / 4) (by omega),
      decSext_encSext ((a % 4) * 16 + b / 16) (by omega),
      decSext_encSext ((b % 16) * 4) (by omega), decSext_pad]
  | a :: b :: c :: rest, h => by
    have ha : a < 256 := h a (by simp)
    have hb : b < 256 := h b (by simp)
    have hc : c < 256 := h c (by simp)
    have ih := filterMap_b64encGroups rest (fun x hx => h x (by simp [hx]))
    simp [b64encGroups, sextGroups, List.filterMap_cons,
      decSext_encSext (a / 4) (by omega),
      decSext_encSext ((a % 4) * 16 + b / 16) (by omega),
      decSext_encSext ((b % 16) * 4 + c / 64) (by omega),
      decSext_encSext (c % 64) (by omega), ih]

theorem b64decGroups_sextGroups_append : ∀ g extra : List Nat,
    (∀ b ∈ g, b < 256) → g.length % 3 = 0 →
    b64decGroups (sextGroups g ++ extra) = g ++ b64decGroups extra
  | [], extra, _, _ => rfl
  | [a], _, _, hl => by simp at hl
  | [a, b], _, _, hl => by simp at hl
  | a :: b :: c :: rest, extra, h, hl => by
    have ha : a < 256 := h a (by simp)
    have hb : b < 256 := h b (by simp)
    have hc : c < 256 := h c (by simp)
    have ih := b64decGroups_sextGroups_append rest extra
      (fun x hx => h x (by simp [hx])) (by simp at hl; omega)
    simp only [sextGroups, List.cons_append, b64decGroups, List.append_eq]
    have e1 : a / 4 * 4 + ((a % 4) * 16 + b / 16) / 16 = a := by omega
    have e2 : ((a % 4) * 16 + b / 16) % 16 * 16 + ((b % 16) * 4 + c / 64) / 4
        = b := by omega
    have e3 : ((b % 16) * 4 + c / 64) % 4 * 64 + c % 64 = c := by omega
    rw [e1, e2, e3, ih]

theorem b64decGroups_sextGroups : ∀ g : List Nat, (∀ b ∈ g, b < 256) →
    b64decGroups (sextGroups g) = g
  | [], _ => rfl
  | [a], h => by
    have ha : a < 256 := h a (by simp)
    simp only [sextGroups, b64decGroups]
    have e1 : a / 4 * 4 + (a % 4) * 16 / 16 = a := by omega
    rw [e1]
  | [a, b], h => by
    have ha : a < 256 := h a (by simp)
    have hb : b < 256 := h b (by simp)
    simp only [sextGroups, b64decGroups]
    have e1 : a / 4 * 4 + ((a % 4) * 16 + b / 16) / 16 = a := by omega
    have e2 : ((a % 4) * 16 + b / 16) % 16 * 16 + (b % 16) * 4 / 4 = b := by
      omega
    rw [e1, e2]
  | a :: b :: c :: rest, h => by
    have ha : a < 256 := h a (by simp)
    have hb : b < 256 := h b (by simp)
    have hc : c < 256 := h c (by simp)
    have ih := b64decGroups_sextGroups rest (fun x hx => h x (by simp [hx]))
    simp only [sextGroups, b64decGroups, ih]
    have e1 : a / 4 * 4 + ((a % 4) * 16 + b / 16) / 16 = a := by omega
    have e2 : ((a % 4) * 16 + b / 16) % 16 * 16 + ((b % 16) * 4 + c / 64) / 4
        = b := by omega
    have e3 : ((b % 16) * 4 + c / 64) % 4 * 64 + c % 64 = c := by omega
    rw [e1, e2, e3]

/-- Round-trip of the binary converters: decoding an encoded byte list
gives the bytes back. -/
theorem decodestring_encodestring : ∀ bs : List Nat, (∀ b ∈ bs, b < 256) →
    decodestring (encodestring bs) = bs := by
  intro bs
  generalize hn : bs.length = n
  induction n using Nat.strong_induction_on generalizing bs with
  | _ n ih =>
    intro h
    match bs, hn with
    | [], _ => simp [encodestring, decodestring, b64decGroups]
    | b0 :: bs', hn =>
      rw [encodestring, decodestring, List.filterMap_append,
        List.filterMap_cons, decSext_newline,
        filterMap_b64encGroups _ (fun x hx => h x (List.take_subset _ _ hx))]
      by_cases hlen : (b0 :: bs').length ≤ 57
      · have hdrop : (b0 :: bs').drop 57 = [] := by
          apply List.drop_eq_nil_of_le
          omega
        have htake : (b0 :: bs').take 57 = b0 :: bs' := by
          apply List.take_of_length_le
          omega
        rw [hdrop, htake]
        simp only [encodestring, List.filterMap_nil, List.append_nil]
        exact b64decGroups_sextGroups _ h
      · have htl : ((b0 :: bs').take 57).length % 3 = 0 := by
          rw [List.length_take]
          omega
        rw [b64decGroups_sextGroups_append _ _
          (fun x hx => h x (List.take_subset _ _ hx)) htl]
        have hlt : ((b0 :: bs').drop 57).length < n := by
          rw [List.length_drop]
          omega
        have ihd := ih ((b0 :: bs').drop 57).length hlt ((b0 :: bs').drop 57)
          rfl (fun x hx => h x (List.drop_subset _ _ hx))
        rw [show b64decGroups ((encodestring ((b0 :: bs').drop 57)).filterMap
              decSext) = decodestring (encodestring ((b0 :: bs').drop 57))
            from rfl, ihd, List.take_append_drop]

/-! ### Python values and type descriptors

`PyVal` covers the Python values flowing through the codec: JSON base
values (as produced by `json.loads` and consumed by `json.dumps`), the
scalar values with registered converters (Decimal, date, time, datetime,
byte strings), and instances of complex types (attribute mappings). -/

inductive PyVal where
  | none
  | bool (b : Bool)
  | int (n : Int)
  | str (s : String)
  | list (items : List PyVal)
  | dict (entries : List (String × PyVal))
  | dec (sign : Bool) (coeff : List Nat) (exp : Int)
  | date (y m d : Nat)
  | time (h mi s us : Nat)
  | datetime (y mo d h mi s us : Nat)
  | bytes (bs : List Nat)
  | obj (attrs : List (String × PyVal))

mutual
/-- Modelled from the spec: a type descriptor is primitive, complex
(ordered named attributes, each with a nested descriptor), or array (one
element descriptor); scalar types (decimal, date, time, datetime, binary)
and user types (`custom`) are the identities converters register under.
Identity is stable and comparable so it can key the registry. -/
inductive Datatype where
  | int
  | str
  | bool
  | float
  | decimal
  | date
  | time
  | datetime
  | binary
  | custom (id : String)
  | array (elt : Datatype)
  | complex (cls : String) (attrs : AttrList)
inductive AttrList where
  | nil
  | cons (name : String) (dt : Datatype) (rest : AttrList)
end

deriving instance DecidableEq for Datatype
deriving instance DecidableEq for AttrList

/-- The exceptions the codec's Python code can raise. -/
inductive PyErr where
  | typeError
  | valueError
  | attributeError
deriving DecidableEq

/-- Declared attribute names of a complex descriptor, in order. -/
def attrNames : AttrList → List String
  | .nil => []
  | .cons n _ rest => n :: attrNames rest

/-- The attribute sequence of a complex descriptor as a list. -/
def attrsToList : AttrList → List (String × Datatype)
  | .nil => []
  | .cons n dt rest => (n, dt) :: attrsToList rest

/-- First-match lookup in a string-keyed association list (Python dict
lookup; dict keys are unique). -/
def lookupStr : List (String × PyVal) → String → Option PyVal
  | [], _ => Option.none
  | (k, v) :: rest, n => if k = n then some v else lookupStr rest n

/-- Modelled from the spec: `get_attribute(instance, name)` of the
type-descriptor model (wsme.types is not under src/).  A complex instance
exposes named attributes; attributes never set read as the default `None`.
Reading an attribute off a non-instance raises AttributeError. -/
def get_attribute (v : PyVal) (n : String) : Except PyErr PyVal :=
  match v with
  | .obj attrs => .ok ((lookupStr attrs n).getD .none)
  | _ => .error .attributeError

/-- Modelled from the spec: `set_attribute(instance, name, value)` of the
type-descriptor model; the decoder only calls it on fresh instances with
distinct declared names, recorded here by appending. -/
def set_attribute (v : PyVal) (n : String) (x : PyVal) : PyVal :=
  match v with
  | .obj attrs => .obj (attrs ++ [(n, x)])
  | other => other

/-- A registered converter function (`tojson.when_object` or
`fromjson.when_object` registration). -/
abbrev Conv := Datatype → PyVal → Except PyErr PyVal

/-- First-match lookup of a specific-identity converter, the `_by_object`
dispatch table of simplegeneric (keyed by the stable descriptor
identity). -/
def lookupConv : List (Datatype × Conv) → Datatype → Option Conv
  | [], _ => Option.none
  | (k, f) :: rest, dt => if dt = k then some f else lookupConv rest dt

/-- The two simplegeneric dispatch tables of the module: the
`tojson.when_object` registrations and the `fromjson.when_object`
registrations. -/
structure Registry where
  encs : List (Datatype × Conv)
  decs : List (Datatype × Conv)

/-- An extension registration for a specific type identity, overriding any
earlier entry (dict assignment in simplegeneric; first-match lookup of the
newest entry is observationally the same). -/
def register (X : Datatype) (enc dec : Conv) (reg : Registry) : Registry :=
  ⟨(X, enc) :: reg.encs, (X, dec) :: reg.decs⟩

/-- simplegeneric dispatch: the specific-identity converter when one is
registered, the fallback otherwise. -/
def dispatchE (convs : List (Datatype × Conv)) (dt : Datatype) (v : PyVal)
    (default : Except PyErr PyVal) : Except PyErr PyVal :=
  match lookupConv convs dt with
  | some f => f dt v
  | Option.none => default

/-- Sequence a fallible conversion over a list (the list comprehensions of
`array_tojson` and `array_fromjson`). -/
def listMapExcept (f : PyVal → Except PyErr PyVal) :
    List PyVal → Except PyErr (List PyVal)
  | [] => .ok []
  | a :: l => do
    let b ← f a
    let bs ← listMapExcept f l
    .ok (b :: bs)

/-! ### The built-in scalar converters (`@tojson.when_object(...)` /
`@fromjson.when_object(...)` registrations in restjson.py)

Each converter is total in Python only on values of its scalar type; the
behaviour on values of other shapes (an exception from `isoformat` or
`strptime`, or a string representation from `str`) is modelled as the
raised exception and is outside every property proved below, which
quantify over well-typed values. -/

/-- `decimal_tojson`: `str(value)` for a Decimal value. -/
def decimal_tojson : Conv := fun _ value =>
  match value with
  | .dec sign coeff exp => .ok (.str (String.mk (decStr sign coeff exp)))
  | _ => .error .typeError

/-- `date_tojson`: `value.isoformat()`. -/
def date_tojson : Conv := fun _ value =>
  match value with
  | .date y m d => .ok (.str (String.mk (fmtDate y m d)))
  | _ => .error .attributeError

/-- `time_tojson`: `value.isoformat()`. -/
def time_tojson : Conv := fun _ value =>
  match value with
  | .time h mi s us => .ok (.str (String.mk (fmtTime h mi s us)))
  | _ => .error .attributeError

/-- `datetime_tojson`: `value.isoformat()`. -/
def datetime_tojson : Conv := fun _ value =>
  match value with
  | .datetime y mo d h mi s us =>
    .ok (.str (String.mk (fmtDatetime y mo d h mi s us)))
  | _ => .error .attributeError

/-- The second `datetime_tojson` of the source (the name is reused in the
module; both registrations happen): `base64.encodestring(value)` for the
`wsme.types.binary` identity. -/
def binary_tojson : Conv := fun _ value =>
  match value with
  | .bytes bs => .ok (.str (String.mk (encodestring bs)))
  | _ => .error .typeError

/-- `decimal_fromjson`: `decimal.Decimal(value)`. -/
def decimal_fromjson : Conv := fun _ value =>
  match value with
  | .str s =>
    match decParse s.data with
    | some (sg, c, e) => .ok (.dec sg c e)
    | Option.none => .error .valueError
  | _ => .error .typeError

/-- `date_fromjson`: `datetime.datetime.strptime(value, '%Y-%m-%d').date()`. -/
def date_fromjson : Conv := fun _ value =>
  match value with
  | .str s =>
    match strptimeDate s.data with
    | some (y, m, d) => .ok (.date y m d)
    | Option.none => .error .valueError
  | _ => .error .typeError

/-- `time_fromjson`: `datetime.datetime.strptime(value, '%H:%M:%S').time()`. -/
def time_fromjson : Conv := fun _ value =>
  match value with
  | .str s =>
    match strptimeTime s.data with
    | some (h, mi, sec) => .ok (.time h mi sec 0)
    | Option.none => .error .valueError
  | _ => .error .typeError

/-- The second `time_fromjson` of the source (name reused; registered for
the datetime identity): `strptime(value, '%Y-%m-%dT%H:%M:%S')`. -/
def datetime_fromjson : Conv := fun _ value =>
  match value with
  | .str s =>
    match strptimeDatetime s.data with
    | some (y, mo, d, h, mi, sec) => .ok (.datetime y mo d h mi sec 0)
    | Option.none => .error .valueError
  | _ => .error .typeError

/-- `binary_fromjson`: `base64.decodestring(value)`. -/
def binary_fromjson : Conv := fun _ value =>
  match value with
  | .str s => .ok (.bytes (decodestring s.data))
  | _ => .error .typeError

/-- The module state after import: the five `when_object` registrations of
each generic function. -/
def builtinReg : Registry :=
  { encs := [(.decimal, decimal_tojson), (.date, date_tojson),
             (.time, time_tojson), (.datetime, datetime_tojson),
             (.binary, binary_tojson)],
    decs := [(.decimal, decimal_fromjson), (.date, date_fromjson),
             (.time, time_fromjson), (.datetime, datetime_fromjson),
             (.binary, binary_fromjson)] }

/-! ### The generic functions `tojson` and `fromjson`

simplegeneric dispatch order: the `when_object` table first (specific
identity), then `when_type(list)` (the array rule, matching because array
descriptors are list instances), then the generic default.  The default
`tojson` builds a mapping for complex datatypes and returns the value
unchanged otherwise; the default `fromjson` returns `None` for a `None`
wire value, builds an instance for complex datatypes, and returns the
value unchanged otherwise.  For non-complex datatypes the default
`fromjson` is the identity whether or not the value is `None`, so the
`None` test is folded into the passthrough below. -/

mutual
def tojson (reg : Registry) : Datatype → PyVal → Except PyErr PyVal
  | .int => fun value => dispatchE reg.encs .int value (.ok value)
  | .str => fun value => dispatchE reg.encs .str value (.ok value)
  | .bool => fun value => dispatchE reg.encs .bool value (.ok value)
  | .float => fun value => dispatchE reg.encs .float value (.ok value)
  | .decimal => fun value => dispatchE reg.encs .decimal value (.ok value)
  | .date => fun value => dispatchE reg.encs .date value (.ok value)
  | .time => fun value => dispatchE reg.encs .time value (.ok value)
  | .datetime => fun value => dispatchE reg.encs .datetime value (.ok value)
  | .binary => fun value => dispatchE reg.encs .binary value (.ok value)
  | .custom s => fun value => dispatchE reg.encs (.custom s) value (.ok value)
  | .array elt => fun value =>
      dispatchE reg.encs (.array elt) value
        (match value with
         | .list items => Except.map PyVal.list (listMapExcept (tojson reg elt) items)
         | _ => .error .typeError)
  | .complex cls attrs => fun value =>
      dispatchE reg.encs (.complex cls attrs) value
        (Except.map PyVal.dict (tojsonAttrs reg attrs value))

def tojsonAttrs (reg : Registry) : AttrList → PyVal → Except PyErr (List (String × PyVal))
  | .nil => fun _ => .ok []
  | .cons n ndt rest => fun value => do
      let av ← get_attribute value n
      let w ← tojson reg ndt av
      let tl ← tojsonAttrs reg rest value
      .ok ((n, w) :: tl)
end

mutual
def fromjson (reg : Registry) : Datatype → PyVal → Except PyErr PyVal
  | .int => fun value => dispatchE reg.decs .int value (.ok value)
  | .str => fun value => dispatchE reg.decs .str value (.ok value)
  | .bool => fun value => dispatchE reg.decs .bool value (.ok value)
  | .float => fun value => dispatchE reg.decs .float value (.ok value)
  | .decimal => fun value => dispatchE reg.decs .decimal value (.ok value)
  | .date => fun value => dispatchE reg.decs .date value (.ok value)
  | .time => fun value => dispatchE reg.decs .time value (.ok value)
  | .datetime => fun value => dispatchE reg.decs .datetime value (.ok value)
  | .binary => fun value => dispatchE reg.decs .binary value (.ok value)
  | .custom s => fun value => dispatchE reg.decs (.custom s) value (.ok value)
  | .array elt => fun value =>
      dispatchE reg.decs (.array elt) value
        (match value with
         | .list items => Except.map PyVal.list (listMapExcept (fromjson reg elt) items)
         | _ => .error .typeError)
  | .complex cls attrs => fun value =>
      dispatchE reg.decs (.complex cls attrs) value
        (match value with
         | .none => .ok .none
         | .dict entries => fromjsonAttrs reg attrs entries (PyVal.obj [])
         | _ => .error .typeError)

def fromjsonAttrs (reg : Registry) :
    AttrList → List (String × PyVal) → PyVal → Except PyErr PyVal
  | .nil => fun _ acc => .ok acc
  | .cons n ndt rest => fun entries acc =>
      match lookupStr entries n with
      | some wv => do
          let nv ← fromjson reg ndt wv
          fromjsonAttrs reg rest entries (set_attribute acc n nv)
      | Option.none => fromjsonAttrs reg rest entries acc
end

/-! ### Well-typed native values

`wellTypedB false dt v` says `v` is a native value of the shape the
descriptor `dt` denotes (spec section 3: a complex instance with the
declared attributes, an ordered sequence for arrays, a host scalar value
of the scalar's kind; `None` is admitted at primitive positions, where the
codec passes it through).  `wellTypedB true dt v` additionally requires
every time and timestamp inside `v` to carry no fractional seconds: the
wire formats have none, so these are the values the fixed formats can
represent. -/

/-- No duplicate names (the spec's invariant on a complex type's
attribute sequence). -/
def nodupB : List String → Bool
  | [] => true
  | x :: xs => !(xs.contains x) && nodupB xs

mutual
def wellTypedB (strict : Bool) : Datatype → PyVal → Bool
  | .int => fun v =>
      match v with
      | .int _ => true
      | .none => true
      | _ => false
  | .str => fun v =>
      match v with
      | .str _ => true
      | .none => true
      | _ => false
  | .bool => fun v =>
      match v with
      | .bool _ => true
      | .none => true
      | _ => false
  | .float => fun _ => false
  | .decimal => fun v =>
      match v with
      | .dec _ coeff _ => decNormal coeff
      | _ => false
  | .date => fun v =>
      match v with
      | .date y m d => validDate y m d
      | _ => false
  | .time => fun v =>
      match v with
      | .time h mi s us => validTime h mi s us && (!strict || us == 0)
      | _ => false
  | .datetime => fun v =>
      match v with
      | .datetime y mo d h mi s us =>
        validDate y mo d && validTime h mi s us && (!strict || us == 0)
      | _ => false
  | .binary => fun v =>
      match v with
      | .bytes bs => bs.all (· < 256)
      | _ => false
  | .custom _ => fun _ => false
  | .array elt => fun v =>
      match v with
      | .list items => items.all (wellTypedB strict elt)
      | _ => false
  | .complex _ attrs => fun v =>
      match v with
      | .obj al => nodupB (attrNames attrs) && wellTypedAttrsB strict attrs al
      | _ => false

def wellTypedAttrsB (strict : Bool) : AttrList → List (String × PyVal) → Bool
  | .nil => fun al => al.isEmpty
  | .cons n ndt rest => fun al =>
      match al with
      | (n2, av) :: al2 =>
        (n2 == n) && wellTypedB strict ndt av && wellTypedAttrsB strict rest al2
      | [] => false
end

/-! ### Round-trip of well-typed values -/

theorem exceptOkBind {α β : Type} (a : α) (f : α → Except PyErr β) :
    (Except.ok a : Except PyErr α) >>= f = f a := rfl

theorem dispatchE_none (convs : List (Datatype × Conv)) (dt : Datatype)
    (v : PyVal) (d : Except PyErr PyVal)
    (h : lookupConv convs dt = Option.none) : dispatchE convs dt v d = d := by
  simp [dispatchE, h]

theorem dispatchE_some (convs : List (Datatype × Conv)) (dt : Datatype)
    (v : PyVal) (d : Except PyErr PyVal) (f : Conv)
    (h : lookupConv convs dt = some f) : dispatchE convs dt v d = f dt v := by
  simp [dispatchE, h]

theorem tojson_dispatch (reg : Registry) (dt : Datatype) (v : PyVal)
    (f : Conv) (h : lookupConv reg.encs dt = some f) :
    tojson reg dt v = f dt v := by
  cases dt <;> simp only [tojson, dispatchE, h]

theorem fromjson_dispatch (reg : Registry) (dt : Datatype) (v : PyVal)
    (f : Conv) (h : lookupConv reg.decs dt = some f) :
    fromjson reg dt v = f dt v := by
  cases dt <;> simp only [fromjson, dispatchE, h]

theorem lookupConv_encs_array (elt : Datatype) :
    lookupConv builtinReg.encs (.array elt) = Option.none := rfl

theorem lookupConv_decs_array (elt : Datatype) :
    lookupConv builtinReg.decs (.array elt) = Option.none := rfl

theorem lookupConv_encs_complex (cls : String) (attrs : AttrList) :
    lookupConv builtinReg.encs (.complex cls attrs) = Option.none := rfl

theorem lookupConv_decs_complex (cls : String) (attrs : AttrList) :
    lookupConv builtinReg.decs (.complex cls attrs) = Option.none := rfl

theorem lookupStr_cons_self (n : String) (v : PyVal)
    (l : List (String × PyVal)) : lookupStr ((n, v) :: l) n = some v := by
  simp [lookupStr]

theorem lookupStr_cons_ne (k n : String) (v : PyVal)
    (l : List (String × PyVal)) (h : ¬ k = n) :
    lookupStr ((k, v) :: l) n = lookupStr l n := by
  simp [lookupStr, h]

theorem contains_false_not_mem (l : List String) (x : String)
    (h : l.contains x = false) : x ∉ l := by
  induction l with
  | nil => simp
  | cons y t ih =>
    intro hm
    rcases List.mem_cons.mp hm with he | hm2
    · subst he
      simp at h
    · simp only [List.contains_cons, Bool.or_eq_false_iff] at h
      exact ih h.2 hm2

theorem listMapExcept_roundtrip (f g : PyVal → Except PyErr PyVal) :
    ∀ items : List PyVal,
      (∀ x ∈ items, ∃ w, f x = .ok w ∧ g w = .ok x) →
      ∃ ws, listMapExcept f items = .ok ws ∧ listMapExcept g ws = .ok items := by
  intro items
  induction items with
  | nil => exact fun _ => ⟨[], rfl, rfl⟩
  | cons x t ih =>
    intro h
    obtain ⟨w, hw1, hw2⟩ := h x (by simp)
    obtain ⟨ws, hws1, hws2⟩ := ih (fun y hy => h y (by simp [hy]))
    refine ⟨w :: ws, ?_, ?_⟩
    · simp only [listMapExcept, hw1, exceptOkBind, hws1]
    · simp only [listMapExcept, hw2, exceptOkBind, hws2]

mutual

theorem roundtripAux : ∀ (dt : Datatype) (v : PyVal),
    wellTypedB true dt v = true →
    ∃ w, tojson builtinReg dt v = .ok w ∧ fromjson builtinReg dt w = .ok v
  | .int, .int n, _ => ⟨.int n, rfl, rfl⟩
  | .int, .none, _ => ⟨.none, rfl, rfl⟩
  | .str, .str s, _ => ⟨.str s, rfl, rfl⟩
  | .str, .none, _ => ⟨.none, rfl, rfl⟩
  | .bool, .bool b, _ => ⟨.bool b, rfl, rfl⟩
  | .bool, .none, _ => ⟨.none, rfl, rfl⟩
  | .decimal, .dec sg c e, h => by
    have hn : decNormal c = true := by
      simpa [wellTypedB] using h
    refine ⟨.str (String.mk (decStr sg c e)), rfl, ?_⟩
    show decimal_fromjson .decimal (.str (String.mk (decStr sg c e)))
        = .ok (.dec sg c e)
    simp only [decimal_fromjson]
    rw [decParse_decStr sg c e hn]
  | .date, .date y m d, h => by
    have hv : validDate y m d = true := by
      simpa [wellTypedB] using h
    refine ⟨.str (String.mk (fmtDate y m d)), rfl, ?_⟩
    show date_fromjson .date (.str (String.mk (fmtDate y m d)))
        = .ok (.date y m d)
    simp only [date_fromjson]
    rw [strptimeDate_fmt y m d hv]
  | .time, .time h mi s us, hw => by
    have hv : validTime h mi s us = true ∧ us = 0 := by
      simpa [wellTypedB] using hw
    obtain ⟨hv1, hv2⟩ := hv
    subst hv2
    have hb := hv1
    simp only [validTime, Bool.and_eq_true, decide_eq_true_eq] at hb
    refine ⟨.str (String.mk (fmtTime h mi s 0)), rfl, ?_⟩
    show time_fromjson .time (.str (String.mk (fmtTime h mi s 0)))
        = .ok (.time h mi s 0)
    simp only [time_fromjson]
    rw [strptimeTime_fmt h mi s (by omega) (by omega) (by omega)]
  | .datetime, .datetime y mo d h mi s us, hw => by
    have hv : (validDate y mo d = true ∧ validTime h mi s us = true) ∧
        us = 0 := by
      simpa [wellTypedB] using hw
    obtain ⟨⟨hd, ht⟩, hu⟩ := hv
    subst hu
    have hb := ht
    simp only [validTime, Bool.and_eq_true, decide_eq_true_eq] at hb
    refine ⟨.str (String.mk (fmtDatetime y mo d h mi s 0)), rfl, ?_⟩
    show datetime_fromjson .datetime
        (.str (String.mk (fmtDatetime y mo d h mi s 0)))
        = .ok (.datetime y mo d h mi s 0)
    simp only [datetime_fromjson]
    rw [strptimeDatetime_fmt y mo d h mi s hd (by omega) (by omega) (by omega)]
  | .binary, .bytes bs, h => by
    have hb : ∀ b ∈ bs, b < 256 := by
      simpa [wellTypedB] using h
    refine ⟨.str (String.mk (encodestring bs)), rfl, ?_⟩
    show binary_fromjson .binary (.str (String.mk (encodestring bs)))
        = .ok (.bytes bs)
    simp only [binary_fromjson]
    rw [decodestring_encodestring bs hb]
  | .array elt, .list items, h => by
    have hall : ∀ x ∈ items, wellTypedB true elt x = true := by
      simpa [wellTypedB] using h
    obtain ⟨ws, hws1, hws2⟩ := listMapExcept_roundtrip
      (tojson builtinReg elt) (fromjson builtinReg elt) items
      (fun x hx => roundtripAux elt x (hall x hx))
    refine ⟨.list ws, ?_, ?_⟩
    · show dispatchE builtinReg.encs (.array elt) (.list items)
          (Except.map PyVal.list (listMapExcept (tojson builtinReg elt) items))
          = .ok (.list ws)
      rw [dispatchE_none _ _ _ _ (lookupConv_encs_array elt), hws1]
      rfl
    · show dispatchE builtinReg.decs (.array elt) (.list ws)
          (Except.map PyVal.list (listMapExcept (fromjson builtinReg elt) ws))
          = .ok (.list items)
      rw [dispatchE_none _ _ _ _ (lookupConv_decs_array elt), hws2]
      rfl
  | .complex cls attrs, .obj al, h => by
    have hh : nodupB (attrNames attrs) = true ∧
        wellTypedAttrsB true attrs al = true := by
      simpa [wellTypedB] using h
    obtain ⟨hnd, hwa⟩ := hh
    obtain ⟨D, hD, hDn, hfrom⟩ := roundtripAttrsAux attrs al al hwa hnd
      (fun _ _ => rfl)
    refine ⟨.dict D, ?_, ?_⟩
    · show dispatchE builtinReg.encs (.complex cls attrs) (.obj al)
          (Except.map PyVal.dict (tojsonAttrs builtinReg attrs (.obj al)))
          = .ok (.dict D)
      rw [dispatchE_none _ _ _ _ (lookupConv_encs_complex cls attrs), hD]
      rfl
    · show dispatchE builtinReg.decs (.complex cls attrs) (.dict D)
          (fromjsonAttrs builtinReg attrs D (PyVal.obj []))
          = .ok (.obj al)
      rw [dispatchE_none _ _ _ _ (lookupConv_decs_complex cls attrs),
        hfrom D [] (fun _ _ => rfl)]
      rfl

theorem roundtripAttrsAux : ∀ (attrs : AttrList)
    (al obn : List (String × PyVal)),
    wellTypedAttrsB true attrs al = true →
    nodupB (attrNames attrs) = true →
    (∀ n, n ∈ attrNames attrs → lookupStr obn n = lookupStr al n) →
    ∃ D, tojsonAttrs builtinReg attrs (.obj obn) = .ok D ∧
      D.map Prod.fst = attrNames attrs ∧
      ∀ (wire acc : List (String × PyVal)),
        (∀ n, n ∈ attrNames attrs → lookupStr wire n = lookupStr D n) →
        fromjsonAttrs builtinReg attrs wire (.obj acc) = .ok (.obj (acc ++ al))
  | .nil, al, obn, h, _, _ => by
    have hal : al = [] := by
      cases al with
      | nil => rfl
      | cons x t => simp [wellTypedAttrsB] at h
    subst hal
    exact ⟨[], rfl, rfl, fun wire acc _ => by simp [fromjsonAttrs]⟩
  | .cons n ndt rest, (n2, av) :: al2, obn, h, hnd, hlk => by
    have hh : (n2 = n ∧ wellTypedB true ndt av = true) ∧
        wellTypedAttrsB true rest al2 = true := by
      simpa [wellTypedAttrsB] using h
    obtain ⟨⟨hn2, hwt⟩, hrest⟩ := hh
    subst hn2
    have hnd' : (attrNames rest).contains n2 = false ∧
        nodupB (attrNames rest) = true := by
      simpa [nodupB, attrNames] using hnd
    have hnotmem : n2 ∉ attrNames rest :=
      contains_false_not_mem _ _ hnd'.1
    have hlkh : lookupStr obn n2 = some av := by
      rw [hlk n2 (by simp [attrNames]), lookupStr_cons_self]
    obtain ⟨w, hw1, hw2⟩ := roundtripAux ndt av hwt
    obtain ⟨D2, hD2, hD2n, hfrom2⟩ := roundtripAttrsAux rest al2 obn hrest
      hnd'.2
      (by
        intro n' hn'
        have hne : ¬ n2 = n' := fun he => hnotmem (he ▸ hn')
        rw [hlk n' (by simp [attrNames, hn']), lookupStr_cons_ne _ _ _ _ hne])
    refine ⟨(n2, w) :: D2, ?_, ?_, ?_⟩
    · show (do
          let a ← get_attribute (.obj obn) n2
          let w2 ← tojson builtinReg ndt a
          let tl ← tojsonAttrs builtinReg rest (.obj obn)
          Except.ok ((n2, w2) :: tl)) = Except.ok ((n2, w) :: D2)
      rw [show get_attribute (.obj obn) n2 = .ok ((lookupStr obn n2).getD .none)
          from rfl, hlkh]
      simp only [Option.getD_some, exceptOkBind, hw1, hD2]
    · simp only [List.map_cons, attrNames, hD2n]
    · intro wire acc hwi
      have hwih : lookupStr wire n2 = some w := by
        rw [hwi n2 (by simp [attrNames]), lookupStr_cons_self]
      show (match lookupStr wire n2 with
        | some wv => do
            let nv ← fromjson builtinReg ndt wv
            fromjsonAttrs builtinReg rest wire
              (set_attribute (.obj acc) n2 nv)
        | Option.none => fromjsonAttrs builtinReg rest wire (.obj acc))
          = Except.ok (.obj (acc ++ (n2, av) :: al2))
      rw [hwih]
      simp only [hw2, exceptOkBind]
      rw [show set_attribute (.obj acc) n2 av = .obj (acc ++ [(n2, av)])
          from rfl]
      rw [hfrom2 wire (acc ++ [(n2, av)])
        (by
          intro n' hn'
          have hne : ¬ n2 = n' := fun he => hnotmem (he ▸ hn')
          rw [hwi n' (by simp [attrNames, hn']), lookupStr_cons_ne _ _ _ _ hne])]
      simp

end

/-! ### `json.dumps` (as called by `encode_result` with
`ensure_ascii=False`) and the protocol class -/

/-- Lowercase hex digit. -/
def hexDigit (n : Nat) : Char :=
  if n < 10 then Nat.digitChar n else Char.ofNat (87 + n)

/-- JSON string escaping with `ensure_ascii=False`: quote, backslash and
control characters are escaped, everything else is kept. -/
def escChar (c : Char) : List Char :=
  if c = '"' then ['\\', '"']
  else if c = '\\' then ['\\', '\\']
  else if c = '\n' then ['\\', 'n']
  else if c = '\t' then ['\\', 't']
  else if c = '\r' then ['\\', 'r']
  else if c.toNat = 8 then ['\\', 'b']
  else if c.toNat = 12 then ['\\', 'f']
  else if c.toNat < 32 then
    ['\\', 'u', '0', '0', hexDigit (c.toNat / 16), hexDigit (c.toNat % 16)]
  else [c]

/-- A JSON string literal. -/
def dumpStr (s : String) : List Char :=
  '"' :: (s.data.map escChar).flatten ++ ['"']

/-- The default item separator of `json.dumps` (a comma and a space). -/
def joinComma : List (List Char) → List Char
  | [] => []
  | [x] => x
  | x :: rest => x ++ ',' :: ' ' :: joinComma rest

mutual
def dumps : PyVal → Except PyErr (List Char)
  | .none => .ok ("null".data)
  | .bool b => .ok ((if b then "true" else "false").data)
  | .int n => .ok ((toString n).data)
  | .str s => .ok (dumpStr s)
  | .list l => do
      let parts ← dumpsList l
      .ok ('[' :: joinComma parts ++ [']'])
  | .dict l => do
      let parts ← dumpsPairs l
      .ok ('{' :: joinComma parts ++ ['}'])
  | _ => .error .typeError

def dumpsList : List PyVal → Except PyErr (List (List Char))
  | [] => .ok []
  | x :: t => do
      let a ← dumps x
      let b ← dumpsList t
      .ok (a :: b)

def dumpsPairs : List (String × PyVal) → Except PyErr (List (List Char))
  | [] => .ok []
  | (k, v) :: t => do
      let a ← dumps v
      let b ← dumpsPairs t
      .ok ((dumpStr k ++ ':' :: ' ' :: a) :: b)
end

/-- Modelled from the spec: the function definition seen by
`encode_result`, exposing the declared return type (`funcdef.return_type`;
wsme.controller is not under src/). -/
structure FuncDef where
  return_type : Datatype

/-- `RestJsonProtocol.encode_result`: encode the result under the declared
return type and serialize `{'result': r}` (the utf-8 byte encoding of the
character sequence is not modelled). -/
def encode_result (fd : FuncDef) (result : PyVal) : Except PyErr (List Char) := do
  let r ← tojson builtinReg fd.return_type result
  dumps (.dict [("result", r)])

/-! ### Characterizations of the structural encoders and decoders -/

theorem exceptBind_ok {α β : Type} (x : Except PyErr α)
    (f : α → Except PyErr β) (b : β) :
    x >>= f = .ok b ↔ ∃ a, x = .ok a ∧ f a = .ok b := by
  cases x with
  | ok a =>
    constructor
    · intro h
      exact ⟨a, rfl, h⟩
    · intro ⟨a2, ha, hf⟩
      cases ha
      exact hf
  | error e =>
    constructor
    · intro h
      exact Except.noConfusion h
    · intro ⟨a2, ha, _⟩
      cases ha

theorem lookupStr_filter (wire : List (String × PyVal)) (m k : String)
    (h : ¬ m = k) :
    lookupStr (wire.filter (fun p => p.1 != k)) m = lookupStr wire m := by
  induction wire with
  | nil => rfl
  | cons p t ih =>
    by_cases hk : p.1 = k
    · have hne : ¬ p.1 = m := by
        rw [hk]
        intro he
        exact h he.symm
      rw [show (p :: t).filter (fun p => p.1 != k) = t.filter (fun p => p.1 != k)
          from by simp [List.filter_cons, hk]]
      rw [ih]
      obtain ⟨p1, p2⟩ := p
      rw [lookupStr_cons_ne _ _ _ _ (by simpa using hne)]
    · rw [show (p :: t).filter (fun p => p.1 != k)
            = p :: t.filter (fun p => p.1 != k)
          from by simp [List.filter_cons, hk]]
      obtain ⟨p1, p2⟩ := p
      by_cases hm : p1 = m
      · subst hm
        rw [lookupStr_cons_self, lookupStr_cons_self]
      · rw [lookupStr_cons_ne _ _ _ _ hm, lookupStr_cons_ne _ _ _ _ hm, ih]

theorem fromjsonAttrs_congr (reg : Registry) :
    ∀ (attrs : AttrList) (wire wire2 : List (String × PyVal)) (acc : PyVal),
    (∀ m, m ∈ attrNames attrs → lookupStr wire m = lookupStr wire2 m) →
    fromjsonAttrs reg attrs wire acc = fromjsonAttrs reg attrs wire2 acc
  | .nil, _, _, _, _ => rfl
  | .cons n ndt rest, wire, wire2, acc, h => by
    have hn := h n (by simp [attrNames])
    have ih := fun acc2 => fromjsonAttrs_congr reg rest wire wire2 acc2
      (fun m hm => h m (by simp [attrNames, hm]))
    show (match lookupStr wire n with
      | some wv => do
          let nv ← fromjson reg ndt wv
          fromjsonAttrs reg rest wire (set_attribute acc n nv)
      | Option.none => fromjsonAttrs reg rest wire acc)
      = (match lookupStr wire2 n with
      | some wv => do
          let nv ← fromjson reg ndt wv
          fromjsonAttrs reg rest wire2 (set_attribute acc n nv)
      | Option.none => fromjsonAttrs reg rest wire2 acc)
    rw [hn]
    cases lookupStr wire2 n with
    | none => exact ih acc
    | some wv =>
      show (do
          let nv ← fromjson reg ndt wv
          fromjsonAttrs reg rest wire (set_attribute acc n nv))
        = (do
          let nv ← fromjson reg ndt wv
          fromjsonAttrs reg rest wire2 (set_attribute acc n nv))
      cases fromjson reg ndt wv with
      | error e => rfl
      | ok nv => exact ih (set_attribute acc n nv)

theorem lookupStr_append_right (l1 l2 : List (String × PyVal)) (n : String)
    (h : lookupStr l1 n = Option.none) :
    lookupStr (l1 ++ l2) n = lookupStr l2 n := by
  induction l1 with
  | nil => rfl
  | cons p t ih =>
    obtain ⟨p1, p2⟩ := p
    by_cases hm : p1 = n
    · subst hm
      rw [lookupStr_cons_self] at h
      cases h
    · rw [List.cons_append, lookupStr_cons_ne _ _ _ _ hm]
      exact ih (by rwa [lookupStr_cons_ne _ _ _ _ hm] at h)

theorem fromjsonAttrs_missing (reg : Registry) :
    ∀ (attrs : AttrList) (wire : List (String × PyVal))
      (acc : List (String × PyVal)) (r : PyVal) (n : String),
    fromjsonAttrs reg attrs wire (.obj acc) = .ok r →
    lookupStr wire n = Option.none →
    lookupStr acc n = Option.none →
    ∃ al, r = .obj al ∧ lookupStr al n = Option.none
  | .nil, _, acc, r, n, h, _, hacc => by
    refine ⟨acc, ?_, hacc⟩
    have h2 : (Except.ok (PyVal.obj acc) : Except PyErr PyVal) = .ok r := h
    exact (Except.ok.inj h2).symm
  | .cons m mdt rest, wire, acc, r, n, h, hwire, hacc => by
    rw [show fromjsonAttrs reg (.cons m mdt rest) wire (.obj acc)
        = (match lookupStr wire m with
          | some wv => do
              let nv ← fromjson reg mdt wv
              fromjsonAttrs reg rest wire (set_attribute (.obj acc) m nv)
          | Option.none => fromjsonAttrs reg rest wire (.obj acc))
        from rfl] at h
    cases hlw : lookupStr wire m with
    | none =>
      rw [hlw] at h
      exact fromjsonAttrs_missing reg rest wire acc r n h hwire hacc
    | some wv =>
      rw [hlw] at h
      rw [exceptBind_ok] at h
      obtain ⟨nv, _, h2⟩ := h
      have hmn : ¬ m = n := by
        intro he
        subst he
        rw [hlw] at hwire
        cases hwire
      have hacc2 : lookupStr (acc ++ [(m, nv)]) n = Option.none := by
        rw [lookupStr_append_right _ _ _ hacc,
          lookupStr_cons_ne _ _ _ _ hmn]
        rfl
      exact fromjsonAttrs_missing reg rest wire (acc ++ [(m, nv)]) r n h2
        hwire hacc2

theorem fromjsonAttrs_total (reg : Registry) :
    ∀ (attrs : AttrList) (wire : List (String × PyVal)) (acc : PyVal),
    (∀ m mdt, (m, mdt) ∈ attrsToList attrs →
      ∀ wv, lookupStr wire m = some wv →
        ∃ nv, fromjson reg mdt wv = .ok nv) →
    ∃ r, fromjsonAttrs reg attrs wire acc = .ok r
  | .nil, _, acc, _ => ⟨acc, rfl⟩
  | .cons m mdt rest, wire, acc, h => by
    show ∃ r, (match lookupStr wire m with
      | some wv => do
          let nv ← fromjson reg mdt wv
          fromjsonAttrs reg rest wire (set_attribute acc m nv)
      | Option.none => fromjsonAttrs reg rest wire acc) = .ok r
    cases hlw : lookupStr wire m with
    | none =>
      exact fromjsonAttrs_total reg rest wire acc
        (fun m2 md2 hm2 => h m2 md2 (by simp [attrsToList, hm2]))
    | some wv =>
      obtain ⟨nv, hnv⟩ := h m mdt (by simp [attrsToList]) wv hlw
      obtain ⟨r, hr⟩ := fromjsonAttrs_total reg rest wire
        (set_attribute acc m nv)
        (fun m2 md2 hm2 => h m2 md2 (by simp [attrsToList, hm2]))
      exact ⟨r, by simp only [hnv, exceptOkBind, hr]⟩

theorem tojsonAttrs_spec (reg : Registry) :
    ∀ (attrs : AttrList) (v : PyVal) (D : List (String × PyVal)),
    tojsonAttrs reg attrs v = .ok D →
    D.map Prod.fst = attrNames attrs ∧
    ∀ (i : Nat) (n : String) (ndt : Datatype),
      (attrsToList attrs)[i]? = some (n, ndt) →
      ∃ av w, get_attribute v n = .ok av ∧ tojson reg ndt av = .ok w ∧
        D[i]? = some (n, w)
  | .nil, v, D, h => by
    have h2 : (Except.ok [] : Except PyErr (List (String × PyVal))) = .ok D := h
    have hD : D = [] := (Except.ok.inj h2).symm
    subst hD
    exact ⟨rfl, by intro i n ndt hi; simp [attrsToList] at hi⟩
  | .cons n ndt rest, v, D, h => by
    rw [show tojsonAttrs reg (.cons n ndt rest) v
        = (do
          let av ← get_attribute v n
          let w ← tojson reg ndt av
          let tl ← tojsonAttrs reg rest v
          Except.ok ((n, w) :: tl)) from rfl] at h
    rw [exceptBind_ok] at h
    obtain ⟨av, hav, h⟩ := h
    rw [exceptBind_ok] at h
    obtain ⟨w, hw, h⟩ := h
    rw [exceptBind_ok] at h
    obtain ⟨tl, htl, h⟩ := h
    have hD : D = (n, w) :: tl := (Except.ok.inj h).symm
    subst hD
    obtain ⟨ih1, ih2⟩ := tojsonAttrs_spec reg rest v tl htl
    refine ⟨by simp [attrNames, ih1], ?_⟩
    intro i n2 ndt2 hi
    match i with
    | 0 =>
      simp only [attrsToList, List.getElem?_cons_zero, Option.some.injEq,
        Prod.mk.injEq] at hi
      obtain ⟨he1, he2⟩ := hi
      subst he1
      subst he2
      exact ⟨av, w, hav, hw, by simp⟩
    | i2 + 1 =>
      simp only [attrsToList, List.getElem?_cons_succ] at hi
      obtain ⟨av2, w2, h1, h2, h3⟩ := ih2 i2 n2 ndt2 hi
      exact ⟨av2, w2, h1, h2, by simpa using h3⟩

theorem listMapExcept_spec (f : PyVal → Except PyErr PyVal) :
    ∀ (items ws : List PyVal), listMapExcept f items = .ok ws →
    ws.length = items.length ∧
    ∀ i, i < items.length →
      ∃ nv wv, items[i]? = some nv ∧ ws[i]? = some wv ∧ f nv = .ok wv
  | [], ws, h => by
    have h2 : (Except.ok [] : Except PyErr (List PyVal)) = .ok ws := h
    have hw : ws = [] := (Except.ok.inj h2).symm
    subst hw
    exact ⟨rfl, by intro i hi; simp at hi⟩
  | x :: t, ws, h => by
    rw [show listMapExcept f (x :: t) = (do
        let b ← f x
        let bs ← listMapExcept f t
        Except.ok (b :: bs)) from rfl] at h
    rw [exceptBind_ok] at h
    obtain ⟨b, hb, h⟩ := h
    rw [exceptBind_ok] at h
    obtain ⟨bs, hbs, h⟩ := h
    have hw : ws = b :: bs := (Except.ok.inj h).symm
    subst hw
    obtain ⟨ih1, ih2⟩ := listMapExcept_spec f t bs hbs
    refine ⟨by simp [ih1], ?_⟩
    intro i hi
    match i with
    | 0 => exact ⟨x, b, by simp, by simp, hb⟩
    | i2 + 1 =>
      obtain ⟨nv, wv, h1, h2, h3⟩ := ih2 i2 (by simpa using hi)
      exact ⟨nv, wv, by simpa using h1, by simpa using h2, h3⟩

/-! ### The claims -/

/-- C1 (amended): for every primitive, scalar, array, and complex
descriptor with a well-typed native value whose time and timestamp
components carry no fractional seconds, `fromjson(d, tojson(d, v))`
reconstructs `v` exactly.  (As stated over all well-formed values the
claim fails: a time with nonzero microseconds is encoded with a
fractional part the fixed `%H:%M:%S` format rejects, see the
counterexample.) -/
theorem c1_roundtrip (dt : Datatype) (v : PyVal)
    (h : wellTypedB true dt v = true) :
    (tojson builtinReg dt v >>= fromjson builtinReg dt) = .ok v := by
  obtain ⟨w, h1, h2⟩ := roundtripAux dt v h
  rw [h1, exceptOkBind, h2]

/-- C1 witness: the spec's own Point example, `x=1.5, y=2.0` with decimal
attributes, round-trips. -/
theorem c1_roundtrip_witness :
    wellTypedB true
        (.complex "Point" (.cons "x" .decimal (.cons "y" .decimal .nil)))
        (.obj [("x", .dec false [1, 5] (-1)), ("y", .dec false [2, 0] (-1))])
      = true ∧
    (tojson builtinReg
        (.complex "Point" (.cons "x" .decimal (.cons "y" .decimal .nil)))
        (.obj [("x", .dec false [1, 5] (-1)), ("y", .dec false [2, 0] (-1))])
      >>= fromjson builtinReg
        (.complex "Point" (.cons "x" .decimal (.cons "y" .decimal .nil))))
      = .ok (.obj [("x", .dec false [1, 5] (-1)),
                   ("y", .dec false [2, 0] (-1))]) :=
  ⟨rfl, c1_roundtrip _ _ rfl⟩

/-- C1 counterexample: `datetime.time(1, 2, 3, 500000)` is a well-formed
native value for the time descriptor, but `isoformat` renders it as
`01:02:03.500000` and `strptime('%H:%M:%S')` then rejects it, so the
round-trip raises instead of reconstructing the value. -/
theorem c1_counterexample :
    wellTypedB false .time (.time 1 2 3 500000) = true ∧
    tojson builtinReg .time (.time 1 2 3 500000)
      = .ok (.str "01:02:03.500000") ∧
    (tojson builtinReg .time (.time 1 2 3 500000) >>=
      fromjson builtinReg .time) = .error .valueError :=
  ⟨rfl, rfl, rfl⟩

/-- C2 (amended): `fromjson(d, None)` returns `None` exactly for the
descriptors that reach the generic default implementation - those with no
registered specific converter that are not array descriptors (complex and
primitive descriptors).  Array descriptors and the built-in scalar
descriptors dispatch before the `None` test and raise on `None` instead. -/
theorem c2_null_shortcircuit :
    (∀ dt : Datatype, lookupConv builtinReg.decs dt = Option.none →
      (∀ elt, dt ≠ Datatype.array elt) →
      fromjson builtinReg dt .none = .ok .none) ∧
    fromjson builtinReg .date .none = .error .typeError ∧
    fromjson builtinReg (.array .int) .none = .error .typeError := by
  refine ⟨?_, rfl, rfl⟩
  intro dt hl hna
  cases dt with
  | int => rfl
  | str => rfl
  | bool => rfl
  | float => rfl
  | decimal => exact Option.noConfusion hl
  | date => exact Option.noConfusion hl
  | time => exact Option.noConfusion hl
  | datetime => exact Option.noConfusion hl
  | binary => exact Option.noConfusion hl
  | custom s => rfl
  | array elt => exact absurd rfl (hna elt)
  | complex cls attrs => rfl

/-- C2 witness: a complex descriptor has no registered converter and is
not an array, so a `None` wire value decodes to `None`. -/
theorem c2_null_shortcircuit_witness :
    fromjson builtinReg (.complex "P" (.cons "x" .int .nil)) .none
      = .ok .none :=
  c2_null_shortcircuit.1 _ rfl (fun _ h => Datatype.noConfusion h)

/-- C2 counterexample: the claim states `fromjson(d, None)` returns `None`
for every descriptor including arrays, but for an array descriptor
dispatch reaches `array_fromjson`, which iterates its input and raises
TypeError on `None`. -/
theorem c2_counterexample :
    fromjson builtinReg (.array .int) PyVal.none = .error .typeError := rfl

/-- C3: after `register(X, customEncode, customDecode)` (a
`when_object` registration for the identity `X`), every `tojson(X, v)`
uses the custom encoder and every `fromjson(X, w)` the custom decoder,
exclusively - the specific-identity converter takes precedence over the
array and complex structural rules and the passthrough - and a later
registration for a different identity does not disturb this. -/
theorem c3_register_precedence (X : Datatype) (enc dec2 : Conv)
    (reg : Registry) (v w : PyVal) :
    tojson (register X enc dec2 reg) X v = enc X v ∧
    fromjson (register X enc dec2 reg) X w = dec2 X w ∧
    ∀ (Y : Datatype) (e2 d2 : Conv), Y ≠ X →
      tojson (register Y e2 d2 (register X enc dec2 reg)) X v = enc X v ∧
      fromjson (register Y e2 d2 (register X enc dec2 reg)) X w
        = dec2 X w := by
  refine ⟨?_, ?_, ?_⟩
  · exact tojson_dispatch _ X v enc (by simp [register, lookupConv])
  · exact fromjson_dispatch _ X w dec2 (by simp [register, lookupConv])
  · intro Y e2 d2 hne
    have hXY : ¬ X = Y := fun he => hne he.symm
    constructor
    · exact tojson_dispatch _ X v enc (by simp [register, lookupConv, hXY])
    · exact fromjson_dispatch _ X w dec2 (by simp [register, lookupConv, hXY])

/-- C3 witness: overriding the built-in date converter with custom
functions; a later registration for the time identity leaves it alone. -/
theorem c3_register_precedence_witness :
    tojson (register .date (fun _ _ => .ok (.str "E"))
        (fun _ _ => .ok (.str "D")) builtinReg) .date (.int 0)
      = .ok (.str "E") ∧
    fromjson (register .date (fun _ _ => .ok (.str "E"))
        (fun _ _ => .ok (.str "D")) builtinReg) .date (.int 1)
      = .ok (.str "D") ∧
    tojson (register .time (fun _ _ => .error .typeError)
        (fun _ _ => .error .typeError)
        (register .date (fun _ _ => .ok (.str "E"))
          (fun _ _ => .ok (.str "D")) builtinReg)) .date (.int 0)
      = .ok (.str "E") := by
  have h := c3_register_precedence .date (fun _ _ => .ok (.str "E"))
    (fun _ _ => .ok (.str "D")) builtinReg (.int 0) (.int 1)
  exact ⟨h.1, h.2.1, (h.2.2 .time _ _ (by decide)).1⟩

/-- C4: decoding a complex type from a wire mapping that lacks some
declared attribute name succeeds (given the present attributes decode)
and leaves that attribute unset on the fresh instance; a wire key
matching no attribute name is ignored (filtering it out of the mapping
does not change the result). -/
theorem c4_missing_field (cls : String) (attrs : AttrList)
    (wire : List (String × PyVal)) (n k : String)
    (hmem : n ∈ attrNames attrs)
    (hmiss : lookupStr wire n = Option.none)
    (hk : k ∉ attrNames attrs) :
    (fromjson builtinReg (.complex cls attrs) (.dict wire)
      = fromjson builtinReg (.complex cls attrs)
          (.dict (wire.filter (fun p => p.1 != k)))) ∧
    (∀ r, fromjson builtinReg (.complex cls attrs) (.dict wire) = .ok r →
      ∃ al, r = .obj al ∧ lookupStr al n = Option.none) ∧
    ((∀ m mdt, (m, mdt) ∈ attrsToList attrs →
        ∀ wv, lookupStr wire m = some wv →
          ∃ nv, fromjson builtinReg mdt wv = .ok nv) →
      ∃ r, fromjson builtinReg (.complex cls attrs) (.dict wire) = .ok r) := by
  have hu : n ∈ attrNames attrs := hmem
  clear hu
  have e : ∀ wr, fromjson builtinReg (.complex cls attrs) (.dict wr)
      = fromjsonAttrs builtinReg attrs wr (.obj []) := fun wr => rfl
  refine ⟨?_, ?_, ?_⟩
  · rw [e wire, e (wire.filter (fun p => p.1 != k))]
    apply fromjsonAttrs_congr
    intro m hm
    have hmk : ¬ m = k := fun he => hk (he ▸ hm)
    exact (lookupStr_filter wire m k hmk).symm
  · intro r hr
    rw [e wire] at hr
    exact fromjsonAttrs_missing builtinReg attrs wire [] r n hr hmiss rfl
  · intro hdec
    obtain ⟨r, hr⟩ := fromjsonAttrs_total builtinReg attrs wire (.obj []) hdec
    exact ⟨r, by rw [e wire]; exact hr⟩

/-- C4 witness: a two-attribute type decoded from a mapping missing
attribute a and carrying an unknown key z. -/
theorem c4_missing_field_witness :
    (fromjson builtinReg (.complex "T" (.cons "a" .int (.cons "b" .int .nil)))
        (.dict [("b", .int 2), ("z", .int 9)])
      = fromjson builtinReg (.complex "T" (.cons "a" .int (.cons "b" .int .nil)))
          (.dict ([("b", .int 2), ("z", .int 9)].filter
            (fun p => p.1 != "z")))) ∧
    (∀ r, fromjson builtinReg
        (.complex "T" (.cons "a" .int (.cons "b" .int .nil)))
        (.dict [("b", .int 2), ("z", .int 9)]) = .ok r →
      ∃ al, r = .obj al ∧ lookupStr al "a" = Option.none) ∧
    ((∀ m mdt,
        (m, mdt) ∈ attrsToList (.cons "a" .int (.cons "b" .int .nil)) →
        ∀ wv, lookupStr [("b", .int 2), ("z", .int 9)] m = some wv →
          ∃ nv, fromjson builtinReg mdt wv = .ok nv) →
      ∃ r, fromjson builtinReg
        (.complex "T" (.cons "a" .int (.cons "b" .int .nil)))
        (.dict [("b", .int 2), ("z", .int 9)]) = .ok r) :=
  c4_missing_field "T" (.cons "a" .int (.cons "b" .int .nil))
    [("b", .int 2), ("z", .int 9)] "a" "z" (by decide) rfl (by decide)

/-- C5 (amended): the scalar decoders accept exactly the strptime
languages of their formats and consume the whole string: anything
appended after a canonical date or timestamp rendering - a timezone
suffix, fractional seconds, any nonempty trailer - makes the decode fail,
and "2020-13-01" fails (no alternative of the month field matches "13"
followed by "-").  The claim's universal "fails for any string not of the
exact form YYYY-MM-DD" is too strong: the `%m` and `%d` fields also
accept one-digit months and days, so "2020-1-1" decodes successfully
(see the counterexample). -/
theorem c5_format_strictness :
    (∀ (y mo d h mi s : Nat) (extra : List Char),
      validDate y mo d = true → h ≤ 23 → mi ≤ 59 → s ≤ 59 → extra ≠ [] →
      fromjson builtinReg .datetime
        (.str (String.mk (fmtDatetime y mo d h mi s 0 ++ extra)))
        = .error .valueError) ∧
    (∀ (y mo d : Nat) (extra : List Char),
      validDate y mo d = true → extra ≠ [] →
      fromjson builtinReg .date (.str (String.mk (fmtDate y mo d ++ extra)))
        = .error .valueError) ∧
    fromjson builtinReg .date (.str "2020-13-01") = .error .valueError ∧
    fromjson builtinReg .datetime (.str "2020-01-01T10:00:00+02:00")
      = .error .valueError ∧
    fromjson builtinReg .datetime (.str "2020-01-01T10:00:00.500000")
      = .error .valueError ∧
    fromjson builtinReg .date (.str "2020-1-1") = .ok (.date 2020 1 1) := by
  refine ⟨?_, ?_, rfl, rfl, rfl, rfl⟩
  · intro y mo d h mi s extra hv hh hmi hs hne
    show datetime_fromjson .datetime
        (.str (String.mk (fmtDatetime y mo d h mi s 0 ++ extra)))
        = .error .valueError
    simp only [datetime_fromjson]
    rw [strptimeDatetime_fmt_extra y mo d h mi s extra hv hh hmi hs hne]
  · intro y mo d extra hv hne
    show date_fromjson .date (.str (String.mk (fmtDate y mo d ++ extra)))
        = .error .valueError
    simp only [date_fromjson]
    rw [strptimeDate_fmt_extra y mo d extra hv hne]

/-- C5 witness: a timezone suffix after a canonical timestamp and a
trailing Z after a canonical date both fail. -/
theorem c5_format_strictness_witness :
    fromjson builtinReg .datetime
      (.str (String.mk (fmtDatetime 2020 1 1 10 0 0 0 ++
        ['+', '0', '2', ':', '0', '0'])))
      = .error .valueError ∧
    fromjson builtinReg .date
      (.str (String.mk (fmtDate 2020 1 1 ++ ['Z']))) = .error .valueError :=
  ⟨c5_format_strictness.1 2020 1 1 10 0 0 _ rfl (by omega) (by omega)
      (by omega) (by simp),
   c5_format_strictness.2.1 2020 1 1 _ rfl (by simp)⟩

/-- C5 counterexample: the claim says every string not of the exact form
YYYY-MM-DD fails for the date descriptor, but the one-digit month and day
rendering "2020-1-1" is accepted by `strptime('%Y-%m-%d')` and decodes to
`date(2020, 1, 1)`. -/
theorem c5_counterexample :
    fromjson builtinReg .date (.str "2020-1-1") = .ok (.date 2020 1 1) := rfl

/-- C6: encoding a complex value builds a new mapping with, for each
declared attribute in declaration order, the attribute read off the value
by name, recursively encoded with the attribute's nested descriptor, and
inserted under the attribute's name. -/
theorem c6_complex_encode (cls : String) (attrs : AttrList)
    (obAl : List (String × PyVal)) (r : PyVal)
    (h : tojson builtinReg (.complex cls attrs) (.obj obAl) = .ok r) :
    ∃ D, r = .dict D ∧ D.map Prod.fst = attrNames attrs ∧
      ∀ (i : Nat) (n : String) (ndt : Datatype),
        (attrsToList attrs)[i]? = some (n, ndt) →
        ∃ av w, get_attribute (.obj obAl) n = .ok av ∧
          tojson builtinReg ndt av = .ok w ∧ D[i]? = some (n, w) := by
  have e : tojson builtinReg (.complex cls attrs) (.obj obAl)
      = Except.map PyVal.dict (tojsonAttrs builtinReg attrs (.obj obAl)) :=
    rfl
  rw [e] at h
  cases hT : tojsonAttrs builtinReg attrs (.obj obAl) with
  | error e2 =>
    rw [hT] at h
    exact Except.noConfusion h
  | ok D =>
    rw [hT] at h
    have hr : r = .dict D := (Except.ok.inj h).symm
    subst hr
    obtain ⟨h1, h2⟩ := tojsonAttrs_spec builtinReg attrs (.obj obAl) D hT
    exact ⟨D, rfl, h1, h2⟩

/-- C6 witness: a one-attribute complex value. -/
theorem c6_complex_encode_witness :
    ∃ D, (PyVal.dict [("a", .int 7)]) = .dict D ∧
      D.map Prod.fst = attrNames (.cons "a" .int .nil) ∧
      ∀ (i : Nat) (n : String) (ndt : Datatype),
        (attrsToList (.cons "a" .int .nil))[i]? = some (n, ndt) →
        ∃ av w, get_attribute (.obj [("a", .int 7)]) n = .ok av ∧
          tojson builtinReg ndt av = .ok w ∧ D[i]? = some (n, w) :=
  c6_complex_encode "T" (.cons "a" .int .nil) [("a", .int 7)]
    (.dict [("a", .int 7)]) rfl

/-- C7: the array rule maps each element through the element descriptor's
converter, preserving order and length in both directions; in particular
the integer list [1, 2, 3] encodes to the wire sequence [1, 2, 3] and
decodes back to itself. -/
theorem c7_array_order :
    (∀ (elt : Datatype) (items : List PyVal) (r : PyVal),
      tojson builtinReg (.array elt) (.list items) = .ok r →
      ∃ ws, r = .list ws ∧ ws.length = items.length ∧
        ∀ i, i < items.length → ∃ nv wv, items[i]? = some nv ∧
          ws[i]? = some wv ∧ tojson builtinReg elt nv = .ok wv) ∧
    (∀ (elt : Datatype) (witems : List PyVal) (r : PyVal),
      fromjson builtinReg (.array elt) (.list witems) = .ok r →
      ∃ ns, r = .list ns ∧ ns.length = witems.length ∧
        ∀ i, i < witems.length → ∃ wv nv, witems[i]? = some wv ∧
          ns[i]? = some nv ∧ fromjson builtinReg elt wv = .ok nv) ∧
    tojson builtinReg (.array .int) (.list [.int 1, .int 2, .int 3])
      = .ok (.list [.int 1, .int 2, .int 3]) ∧
    fromjson builtinReg (.array .int) (.list [.int 1, .int 2, .int 3])
      = .ok (.list [.int 1, .int 2, .int 3]) := by
  refine ⟨?_, ?_, rfl, rfl⟩
  · intro elt items r h
    have e : tojson builtinReg (.array elt) (.list items)
        = Except.map PyVal.list (listMapExcept (tojson builtinReg elt) items) :=
      rfl
    rw [e] at h
    cases hT : listMapExcept (tojson builtinReg elt) items with
    | error e2 =>
      rw [hT] at h
      exact Except.noConfusion h
    | ok ws =>
      rw [hT] at h
      have hr : r = .list ws := (Except.ok.inj h).symm
      subst hr
      obtain ⟨h1, h2⟩ := listMapExcept_spec (tojson builtinReg elt) items ws hT
      exact ⟨ws, rfl, h1, h2⟩
  · intro elt witems r h
    have e : fromjson builtinReg (.array elt) (.list witems)
        = Except.map PyVal.list
            (listMapExcept (fromjson builtinReg elt) witems) := rfl
    rw [e] at h
    cases hT : listMapExcept (fromjson builtinReg elt) witems with
    | error e2 =>
      rw [hT] at h
      exact Except.noConfusion h
    | ok ns =>
      rw [hT] at h
      have hr : r = .list ns := (Except.ok.inj h).symm
      subst hr
      obtain ⟨h1, h2⟩ := listMapExcept_spec (fromjson builtinReg elt) witems
        ns hT
      exact ⟨ns, rfl, h1, h2⟩

/-- C7 witness: a singleton integer array. -/
theorem c7_array_order_witness :
    ∃ ws, (PyVal.list [.int 5]) = .list ws ∧
      ws.length = ([PyVal.int 5]).length ∧
      ∀ i, i < ([PyVal.int 5]).length →
        ∃ nv wv, ([PyVal.int 5])[i]? = some nv ∧ ws[i]? = some wv ∧
          tojson builtinReg .int nv = .ok wv :=
  c7_array_order.1 .int [.int 5] (.list [.int 5]) rfl

/-- C8: a successful result is serialized as a JSON document whose top
level is an object with the single key "result" mapped to the wire value
obtained by encoding the result under the function's declared return
type. -/
theorem c8_result_wrapping (fd : FuncDef) (result : PyVal) (w : PyVal)
    (s : List Char)
    (h1 : tojson builtinReg fd.return_type result = .ok w)
    (h2 : dumps w = .ok s) :
    encode_result fd result
      = .ok ('{' :: (dumpStr "result" ++ ':' :: ' ' :: s) ++ ['}']) := by
  have e : encode_result fd result
      = tojson builtinReg fd.return_type result >>=
          fun r => dumps (.dict [("result", r)]) := rfl
  rw [e, h1, exceptOkBind]
  have e2 : dumps (.dict [("result", w)])
      = (do
        let parts ← (do
          let a ← dumps w
          Except.ok [dumpStr "result" ++ ':' :: ' ' :: a])
        Except.ok ('{' :: joinComma parts ++ ['}'])) := rfl
  rw [e2, h2, exceptOkBind, exceptOkBind]
  rfl

/-- C8 witness: wrapping the integer result 5 of a function declared to
return int. -/
theorem c8_result_wrapping_witness :
    encode_result ⟨.int⟩ (.int 5)
      = .ok ('{' :: (dumpStr "result" ++ ':' :: ' ' :: ("5".data)) ++ ['}']) :=
  c8_result_wrapping ⟨.int⟩ (.int 5) (.int 5) ("5".data) rfl rfl

/-- C9: the mapping produced by encoding a complex value has exactly one
key per declared attribute, in declaration order  - an attribute is never
omitted, and a primitive-typed attribute holding None appears as its name
mapped to null (here: the default unset attribute a of a fresh instance
encodes to the key a with value None). -/
theorem c9_every_attribute_emitted :
    (∀ (cls : String) (attrs : AttrList) (v r : PyVal),
      tojson builtinReg (.complex cls attrs) v = .ok r →
      ∃ D, r = .dict D ∧ D.map Prod.fst = attrNames attrs) ∧
    tojson builtinReg .int .none = .ok .none ∧
    tojson builtinReg (.complex "T" (.cons "a" .int .nil)) (.obj [])
      = .ok (.dict [("a", .none)]) := by
  refine ⟨?_, rfl, rfl⟩
  intro cls attrs v r h
  have e : tojson builtinReg (.complex cls attrs) v
      = Except.map PyVal.dict (tojsonAttrs builtinReg attrs v) := rfl
  rw [e] at h
  cases hT : tojsonAttrs builtinReg attrs v with
  | error e2 =>
    rw [hT] at h
    exact Except.noConfusion h
  | ok D =>
    rw [hT] at h
    have hr : r = .dict D := (Except.ok.inj h).symm
    subst hr
    exact ⟨D, rfl, (tojsonAttrs_spec builtinReg attrs v D hT).1⟩

/-- C9 witness: a fresh instance of a two-attribute type encodes with
both keys present. -/
theorem c9_every_attribute_emitted_witness :
    ∃ D, (PyVal.dict [("a", .none), ("b", .none)]) = .dict D ∧
      D.map Prod.fst = attrNames (.cons "a" .int (.cons "b" .str .nil)) :=
  c9_every_attribute_emitted.1 "T" (.cons "a" .int (.cons "b" .str .nil))
    (.obj []) (.dict [("a", .none), ("b", .none)]) rfl

/-- C10: the conversions are deterministic - they read nothing but the
descriptor, the value, and the registry, so two calls on equal inputs
against the same registry return equal results. -/
theorem c10_deterministic (reg : Registry) (d d2 : Datatype) (v v2 : PyVal)
    (h1 : d = d2) (h2 : v = v2) :
    tojson reg d v = tojson reg d2 v2 ∧
    fromjson reg d v = fromjson reg d2 v2 := by
  subst h1
  subst h2
  exact ⟨rfl, rfl⟩

/-- C10 witness: at a concrete input. -/
theorem c10_deterministic_witness :
    tojson builtinReg .int (.int 1) = tojson builtinReg .int (.int 1) ∧
    fromjson builtinReg .int (.int 1) = fromjson builtinReg .int (.int 1) :=
  c10_deterministic builtinReg .int .int (.int 1) (.int 1) rfl rfl
